import Mathlib

/-!
Verification development for the expression compiler of this repository
(style-spec function expressions): type algebra, type checker with generic
resolution and variadic (NArgs) expansion, the compile driver that builds
JS code strings and constancy flags, and the runtime evaluation-context
helpers (property access, binary-search stop lookup, interpolation factor).

Sources embedded:
  - src/src/style-spec/function/expression.js  (registry, parser, driver)
  - src/unnamed/part_002                        (evaluation context with
    evaluateCurve / findStopLessThanOrEqualTo / interpolationFactor, and
    type_check.js: typeCheckExpression / matchTypeError / isGeneric)

The module types.js is not present under src/; its constructors and pretty
names are modelled from the spec (sections 3 and 4.2).

Conventions of the embedding:
  - JavaScript exceptions are modelled as `Except.error` with a message;
    engine-generated exceptions (property access on `undefined`, failed
    `assert`) use the short markers "TypeError" / "AssertionError".
  - Recursive procedures whose termination is not structural take a fuel
    parameter; fuel exhaustion is the distinguished error "FUEL", and all
    theorems about runs are stated on non-FUEL outcomes or hold for every
    fuel.
  - JS numbers are modelled as rationals; rendering of numbers into code
    strings is exact for integers (the only numerals the claims exercise).
-/

/-- Modelled from the spec: the closed sum of types from types.js (not under
src/).  `value` is the top type: its `kind` is variant-like and its member
list is produced by `Ty.members` below, mirroring the self-referential
`ValueType` object.  `arrayN` carries the fixed length of `Array<T, N>`. -/
inductive Ty where
  | primNull : Ty
  | primNumber : Ty
  | primString : Ty
  | primBoolean : Ty
  | primColor : Ty
  | primObject : Ty
  | primInterpolation : Ty
  | value : Ty
  | typename (n : String) : Ty
  | vector (itemType : Ty) : Ty
  | arrayN (itemType : Ty) (n : Nat) : Ty
  | anyArray (itemType : Ty) : Ty
  | variantT (members : List Ty) : Ty
  | nargsT (types : List Ty) : Ty
  | lambdaT (result : Ty) (args : List Ty) : Ty

mutual
/-- Structural equality on types.  This models the JS reference equality
used by the checker (`t === expected`, `stack.indexOf`): every type object
the program compares is a unique constant of types.js, so reference
equality and structural equality agree on all reachable comparisons. -/
def Ty.beq : Ty → Ty → Bool
  | .primNull, .primNull => true
  | .primNumber, .primNumber => true
  | .primString, .primString => true
  | .primBoolean, .primBoolean => true
  | .primColor, .primColor => true
  | .primObject, .primObject => true
  | .primInterpolation, .primInterpolation => true
  | .value, .value => true
  | .typename a, .typename b => a == b
  | .vector a, .vector b => Ty.beq a b
  | .arrayN a m, .arrayN b n => Ty.beq a b && m == n
  | .anyArray a, .anyArray b => Ty.beq a b
  | .variantT as, .variantT bs => Ty.listBeq as bs
  | .nargsT as, .nargsT bs => Ty.listBeq as bs
  | .lambdaT r as, .lambdaT s bs => Ty.beq r s && Ty.listBeq as bs
  | _, _ => false

/-- Pointwise `Ty.beq` on lists. -/
def Ty.listBeq : List Ty → List Ty → Bool
  | [], [] => true
  | a :: as, b :: bs => Ty.beq a b && Ty.listBeq as bs
  | _, _ => false
end

instance : BEq Ty := ⟨Ty.beq⟩

/-- Source-named aliases for the primitive type objects. -/
def NullType : Ty := Ty.primNull
def NumberType : Ty := Ty.primNumber
def StringType : Ty := Ty.primString
def BooleanType : Ty := Ty.primBoolean
def ColorType : Ty := Ty.primColor
def ObjectType : Ty := Ty.primObject
def ValueType : Ty := Ty.value
def InterpolationType : Ty := Ty.primInterpolation

def lambda (result : Ty) (args : List Ty) : Ty := Ty.lambdaT result args
def nargs (types : List Ty) : Ty := Ty.nargsT types
def vector (t : Ty) : Ty := Ty.vector t
def anyArray (t : Ty) : Ty := Ty.anyArray t
def variant (members : List Ty) : Ty := Ty.variantT members
def typename (n : String) : Ty := Ty.typename n

mutual
/-- Modelled from the spec: the fixed pretty `name` of each type kind,
used verbatim in diagnostics. -/
def Ty.nameOf : Ty → String
  | .primNull => "Null"
  | .primNumber => "Number"
  | .primString => "String"
  | .primBoolean => "Boolean"
  | .primColor => "Color"
  | .primObject => "Object"
  | .primInterpolation => "Interpolation"
  | .value => "Value"
  | .typename n => n
  | .vector t => "Vector<" ++ t.nameOf ++ ">"
  | .arrayN t n => "Array<" ++ t.nameOf ++ ", " ++ toString n ++ ">"
  | .anyArray t => "Array<" ++ t.nameOf ++ ">"
  | .variantT ms => "(" ++ String.intercalate " | " (Ty.namesOf ms) ++ ")"
  | .nargsT ts => String.intercalate ", " (Ty.namesOf ts) ++ ", ..."
  | .lambdaT r args => "(" ++ String.intercalate ", " (Ty.namesOf args) ++ ") => " ++ r.nameOf

/-- Pretty names of a list of types. -/
def Ty.namesOf : List Ty → List String
  | [] => []
  | t :: ts => t.nameOf :: Ty.namesOf ts
end

/-- The `kind` tag of a type as in the source.  `Value` is a variant in the
source object graph, so its kind is "variant". -/
def Ty.kind : Ty → String
  | .primNull | .primNumber | .primString | .primBoolean
  | .primColor | .primObject | .primInterpolation => "primitive"
  | .value => "variant"
  | .typename _ => "typename"
  | .vector _ => "vector"
  | .arrayN _ _ => "array"
  | .anyArray _ => "any_array"
  | .variantT _ => "variant"
  | .nargsT _ => "nargs"
  | .lambdaT _ _ => "lambda"

/-- Member list of a variant-kind type.  For the self-referential `Value`
this unfolds one step of the cyclic object: every primitive except
Interpolation, plus `Vector<Value>` (spec, section 3). -/
def Ty.members : Ty → List Ty
  | .variantT ms => ms
  | .value => [Ty.primNull, Ty.primNumber, Ty.primString, Ty.primBoolean,
               Ty.primColor, Ty.primObject, Ty.vector Ty.value]
  | _ => []

def Ty.isVariantKind : Ty → Bool
  | .variantT _ => true
  | .value => true
  | _ => false

/-- Is the outermost constructor of the type a Typename? -/
def Ty.isTypenameTop : Ty → Bool
  | .typename _ => true
  | _ => false

/-- The typename map of the checker: a JS object keyed by typename, with
insertion-order-preserving overwrite. -/
abbrev TMap := List (String × Ty)

def tmFind (m : TMap) (k : String) : Option Ty :=
  (List.find? (fun p => p.1 = k) m).map (fun p => p.2)

def tmInsert (m : TMap) (k : String) (v : Ty) : TMap :=
  if (List.any m (fun p => p.1 = k)) then
    List.map (fun p => if p.1 = k then (k, v) else p) m
  else m ++ [(k, v)]

/-- util.extend(target, source): copy each binding of source into target. -/
def tmExtend (target source : TMap) : TMap :=
  List.foldl (fun acc p => tmInsert acc p.1 p.2) target source

/-- isGeneric from type_check.js: true iff a Typename occurs, guarded by a
visited stack so the self-referential `Value` terminates.  Fueled; the
stack's reference equality is modelled by structural equality (all cyclic
types in the program go through the unique `ValueType` object). -/
def isGeneric : Nat → Ty → List Ty → Except String Bool
  | 0, _, _ => .error ("FUEL")
  | Nat.succ fuel, t, stack =>
    if stack.contains t then .ok false
    else match t with
      | .typename _ => .ok true
      | .vector it => isGeneric fuel it (stack ++ [t])
      | .arrayN it _ => isGeneric fuel it (stack ++ [t])
      | .variantT ms => goMembers fuel ms (stack ++ [t])
      | .value => goMembers fuel (Ty.members .value) (stack ++ [t])
      | _ => .ok false
where
  /-- members.some((m) => isGeneric(m, stack.concat(type))) -/
  goMembers : Nat → List Ty → List Ty → Except String Bool
  | _, [], _ => .ok false
  | 0, _ :: _, _ => .error ("FUEL")
  | Nat.succ fuel, m :: rest, stack => do
    let b ← isGeneric fuel m stack
    if b then pure true else goMembers fuel rest stack

mutual
/-- matchTypeError from type_check.js: returns (null-or-message, updated
typename map).  The error template is computed from the original actual
type before lambdas are replaced by their result, exactly as in the
source.  Thrown `Error`s (invalid output type) surface as `.error`. -/
def matchTypeError : Nat → Ty → Ty → Option TMap → Except String (Option String × Option TMap)
  | 0, _, _, _ => .error ("FUEL")
  | Nat.succ fuel, expected, t0, mp =>
    let errorMessage := "Expected " ++ expected.nameOf ++ " but found " ++ t0.nameOf ++ " instead."
    let t1 := match t0 with | .lambdaT r _ => r | other => other
    match mp with
    | some m =>
      match expected with
      | .typename en => do
        let gb ← isGeneric fuel t1 []
        let m2 := if (tmFind m en).isNone && !gb then tmInsert m en t1 else m
        pure (none, some m2)
      | _ => do
        let (t2, m2) ← match t1 with
          | .typename tn =>
            match tmFind m tn with
            | some b => pure (b, m)
            | none => do
              let gb ← isGeneric fuel expected []
              if !gb then pure (expected, tmInsert m tn expected)
              else pure (t1, m)
          | _ => pure (t1, m)
        mteKinds fuel expected t2 errorMessage (some m2)
    | none => mteKinds fuel expected t1 errorMessage none

/-- The kind dispatch of matchTypeError after typename handling. -/
def mteKinds : Nat → Ty → Ty → String → Option TMap →
    Except String (Option String × Option TMap)
  | 0, _, _, _, _ => .error ("FUEL")
  | Nat.succ fuel, expected, t, errorMessage, mp =>
  match expected with
  | .primNull | .primNumber | .primString | .primBoolean
  | .primColor | .primObject | .primInterpolation =>
    if Ty.beq t expected then pure (none, mp) else pure (some errorMessage, mp)
  | .vector it =>
    match t with
    | .vector it2 => do
      let (er, mp2) ← matchTypeError fuel it it2 mp
      match er with
      | some e => pure (some (errorMessage ++ ". (" ++ e ++ ")"), mp2)
      | none => pure (none, mp2)
    | _ => pure (some errorMessage, mp)
  | .arrayN it n =>
    match t with
    | .arrayN it2 n2 => do
      let (er, mp2) ← matchTypeError fuel it it2 mp
      match er with
      | some e => pure (some (errorMessage ++ ". (" ++ e ++ ")"), mp2)
      | none => if n ≠ n2 then pure (some errorMessage, mp2) else pure (none, mp2)
    | _ => pure (some errorMessage, mp)
  | .anyArray it =>
    match t with
    | .arrayN it2 _ => do
      let (er, mp2) ← matchTypeError fuel it it2 mp
      match er with
      | some e => pure (some (errorMessage ++ ". (" ++ e ++ ")"), mp2)
      | none => pure (none, mp2)
    | _ => pure (some errorMessage, mp)
  | .variantT _ | .value =>
    if Ty.beq t expected then pure (none, mp)
    else do
      let r ← mteMembersLoop fuel (Ty.members expected) t mp
      match r with
      | some mp2 => pure (none, mp2)
      | none =>
        if t.isVariantKind then do
          let b ← mteExistsError fuel expected (Ty.members t)
          pure (if b then some errorMessage else none, mp)
        else pure (some errorMessage, mp)
  | _ => .error (expected.nameOf ++ " is not a valid output type.")

/-- The member loop of the variant branch: first member that matches wins;
its speculative typename-map copy is merged back into the caller's map. -/
def mteMembersLoop : Nat → List Ty → Ty → Option TMap →
    Except String (Option (Option TMap))
  | _, [], _, _ => pure none
  | 0, _ :: _, _, _ => .error ("FUEL")
  | Nat.succ fuel, m :: rest, t, mp => do
    let (er, copy2) ← matchTypeError fuel m t mp
    match er with
    | none =>
      match mp, copy2 with
      | some base, some upd => pure (some (some (tmExtend base upd)))
      | _, _ => pure (some mp)
    | some _ => mteMembersLoop fuel rest t mp

/-- t.members.some((m) => matchTypeError(expected, m)): true iff some
member of the actual variant fails to match (no typename map passed). -/
def mteExistsError : Nat → Ty → List Ty → Except String Bool
  | _, _, [] => pure false
  | 0, _, _ :: _ => .error ("FUEL")
  | Nat.succ fuel, expected, m :: rest => do
    let (er, _) ← matchTypeError fuel expected m none
    if er.isSome then pure true else mteExistsError fuel expected rest
end

/-- Literal values of the expression language (JSON scalars). -/
inductive LitVal where
  | nullL : LitVal
  | strL (s : String) : LitVal
  | numL (q : Rat) : LitVal
  | boolL (b : Bool) : LitVal
deriving DecidableEq, Repr

/-- TypedExpression from type_check.js: a literal or a lambda application,
each carrying its type tag and dotted path key. -/
inductive TExpr where
  | lit (value : LitVal) (type : Ty) (key : String) : TExpr
  | lambdaE (name : String) (type : Ty) (args : List TExpr) (key : String) : TExpr

def TExpr.typeOf : TExpr → Ty
  | .lit _ t _ => t
  | .lambdaE _ t _ _ => t

def TExpr.keyOf : TExpr → String
  | .lit _ _ k => k
  | .lambdaE _ _ _ k => k

def TExpr.isLiteral : TExpr → Bool
  | .lit _ _ _ => true
  | .lambdaE _ _ _ _ => false

/-- A diagnostic record `{ error, key }` (CompileError / TypeError shape). -/
structure CErr where
  error : String
  key : String
deriving DecidableEq, Repr

/-- Rendering of a JS number into source text.  Exact for integers; the
claims exercise integral numerals only. -/
def renderNum (q : Rat) : String :=
  if q.den = 1 then toString q.num else toString q

/-- JSON string quoting; escape sequences are not modelled (all strings the
claims exercise are escape-free). -/
def jsonQuote (s : String) : String := "\"" ++ s ++ "\""

/-- JSON.stringify of a literal value. -/
def jsonStringify : LitVal → String
  | .nullL => "null"
  | .strL s => jsonQuote s
  | .numL q => renderNum q
  | .boolL b => if b then "true" else "false"

mutual
/-- JSON.stringify(serializeExpression(e)) from type_check.js: literals
re-emit their value, lambdas re-emit `[name, ...children]`. -/
def stringifyExpression : TExpr → String
  | .lit v _ _ => jsonStringify v
  | .lambdaE name _ args _ =>
    "[" ++ String.intercalate "," (jsonQuote name :: stringifyArgs args) ++ "]"

/-- Serialization of the argument list. -/
def stringifyArgs : List TExpr → List String
  | [] => []
  | a :: rest => stringifyExpression a :: stringifyArgs rest
end

/-- Raw JSON-shaped input values fed to the parser. -/
inductive RawExpr where
  | undef : RawExpr
  | nullR : RawExpr
  | boolR (b : Bool) : RawExpr
  | numR (q : Rat) : RawExpr
  | strR (s : String) : RawExpr
  | arr (elems : List RawExpr) : RawExpr
  | objR : RawExpr

/-- The string a raw value turns into when used as a property key or in a
template literal (JS coercion); arrays and objects are approximated. -/
def rawToKey : RawExpr → String
  | .undef => "undefined"
  | .nullR => "null"
  | .boolR b => if b then "true" else "false"
  | .numR q => renderNum q
  | .strR s => s
  | .arr _ => ""
  | .objR => "[object Object]"

/-- The declared type scheme of each registry entry, keyed by operator name
(expression.js, `expressions`). -/
def lookupDefType : String → Option Ty
  | "ln2" => some (lambda NumberType [])
  | "pi" => some (lambda NumberType [])
  | "e" => some (lambda NumberType [])
  | "string" => some (lambda StringType [ValueType])
  | "number" => some (lambda NumberType [ValueType])
  | "boolean" => some (lambda BooleanType [ValueType])
  | "json_array" => some (lambda (vector ValueType) [ValueType])
  | "object" => some (lambda ObjectType [ValueType])
  | "color" => some (lambda ColorType [StringType])
  | "color_to_array" => some (lambda (Ty.arrayN NumberType 4) [ColorType])
  | "get" => some (lambda ValueType [ObjectType, StringType])
  | "has" => some (lambda BooleanType [ObjectType, StringType])
  | "at" => some (lambda (typename "T")
      [variant [vector (typename "T"), anyArray (typename "T")], NumberType])
  | "typeof" => some (lambda StringType [ValueType])
  | "length" => some (lambda NumberType [variant [vector (typename "T"), StringType]])
  | "properties" => some (lambda ObjectType [])
  | "geometry_type" => some (lambda StringType [])
  | "id" => some (lambda ValueType [])
  | "zoom" => some (lambda NumberType [])
  | "+" => some (lambda NumberType [NumberType, NumberType])
  | "*" => some (lambda NumberType [NumberType, NumberType])
  | "-" => some (lambda NumberType [NumberType, NumberType])
  | "/" => some (lambda NumberType [NumberType, NumberType])
  | "%" => some (lambda NumberType [NumberType, NumberType])
  | "^" => some (lambda NumberType [NumberType, NumberType])
  | "log10" => some (lambda NumberType [NumberType])
  | "ln" => some (lambda NumberType [NumberType])
  | "log2" => some (lambda NumberType [NumberType])
  | "sin" => some (lambda NumberType [NumberType])
  | "cos" => some (lambda NumberType [NumberType])
  | "tan" => some (lambda NumberType [NumberType])
  | "asin" => some (lambda NumberType [NumberType])
  | "acos" => some (lambda NumberType [NumberType])
  | "atan" => some (lambda NumberType [NumberType])
  | "==" => some (lambda BooleanType [typename "T", typename "T"])
  | "!=" => some (lambda BooleanType [typename "T", typename "T"])
  | ">" => some (lambda BooleanType [typename "T", typename "T"])
  | "<" => some (lambda BooleanType [typename "T", typename "T"])
  | ">=" => some (lambda BooleanType [typename "T", typename "T"])
  | "<=" => some (lambda BooleanType [typename "T", typename "T"])
  | "&&" => some (lambda BooleanType [nargs [BooleanType]])
  | "||" => some (lambda BooleanType [nargs [BooleanType]])
  | "!" => some (lambda BooleanType [BooleanType])
  | "upcase" => some (lambda StringType [StringType])
  | "downcase" => some (lambda StringType [StringType])
  | "concat" => some (lambda StringType [nargs [ValueType]])
  | "rgb" => some (lambda ColorType [NumberType, NumberType, NumberType])
  | "rgba" => some (lambda ColorType [NumberType, NumberType, NumberType, NumberType])
  | "case" => some (lambda (typename "T")
      [nargs [BooleanType, typename "T"], typename "T"])
  | "curve" => some (lambda (typename "T")
      [InterpolationType, NumberType, nargs [NumberType, typename "T"]])
  | "step" => some (lambda InterpolationType [])
  | "exponential" => some (lambda InterpolationType [NumberType])
  | "linear" => some (lambda InterpolationType [])
  | _ => none

mutual
/-- parseExpression from expression.js: raw JSON value to TypedExpression.
Parse failures are thrown (`.error`), not collected. -/
def parseExpression (key : String) (expr : RawExpr) : Except String TExpr :=
  match expr with
  | .undef => .ok (.lit .nullL NullType key)
  | .strR s => .ok (.lit (.strL s) StringType key)
  | .numR q => .ok (.lit (.numL q) NumberType key)
  | .boolR b => .ok (.lit (.boolL b) BooleanType key)
  | .nullR => .error (key ++ ": expected an array, but found object instead.")
  | .objR => .error (key ++ ": expected an array, but found object instead.")
  | .arr elems =>
    match elems with
    | [] => .error (key ++ ": unknown function undefined")
    | op :: rest =>
      let opName := rawToKey op
      match lookupDefType opName with
      | none => .error (key ++ ": unknown function " ++ opName)
      | some ty => do
        let args ← parseArgs key 1 rest
        pure (.lambdaE opName ty args key)

/-- Parse the argument list, assigning 1-based dotted keys. -/
def parseArgs (key : String) (i : Nat) : List RawExpr → Except String (List TExpr)
  | [] => pure []
  | a :: rest => do
    let pa ← parseExpression (key ++ "." ++ toString i) a
    let pr ← parseArgs key (i + 1) rest
    pure (pa :: pr)
end

/-- The inner while of the NArgs expansion: greedily consume argument
values matching the cycled type list; on each completed cycle commit the
type list to the expansion and merge the tentative typename bindings.
Returns the final (vi, j, map, expanded); the caller rewinds vi by j. -/
def nargsLoop : Nat → List Ty → List TExpr → Nat → Nat → TMap → TMap → List Ty →
    Except String (Nat × Nat × TMap × List Ty)
  | 0, _, _, _, _, _, _, _ => .error ("FUEL")
  | Nat.succ fuel, types, argVals, vi, j, cur, map, expanded =>
    if h : vi < argVals.length then do
      match types.get? j with
      | none => .error ("TypeError")
      | some tj => do
        let (er, m2) ← matchTypeError (Nat.succ fuel) tj (argVals.get ⟨vi, h⟩).typeOf (some cur)
        match er with
        | some _ => pure (vi, j, map, expanded)
        | none =>
          let cur2 := m2.getD []
          let j2 := (j + 1) % types.length
          if j2 = 0 then
            nargsLoop fuel types argVals (vi + 1) j2 [] (tmExtend map cur2) (expanded ++ types)
          else
            nargsLoop fuel types argVals (vi + 1) j2 cur2 map expanded
    else pure (vi, j, map, expanded)

/-- The argument-expansion for-loop of typeCheckExpression: walk the
declared argument slots while argument values remain; NArgs slots run the
greedy inner loop, plain slots match directly (mismatches are keyed on the
applying node). -/
def expandArgs (fuel : Nat) (key : String) (tys : List Ty) (argVals : List TExpr)
    (vi : Nat) (map : TMap) (expanded : List Ty) (errs : List CErr) :
    Except String (List Ty × TMap × List CErr) :=
  match tys with
  | [] => pure (expanded, map, errs)
  | t :: rest =>
    if h : vi < argVals.length then
      match t with
      | .nargsT types => do
        let (vi2, j, map2, expanded2) ← nargsLoop fuel types argVals vi 0 [] map expanded
        expandArgs fuel key rest argVals (vi2 - j) map2 expanded2 errs
      | _ => do
        let (er, m2) ← matchTypeError fuel t (argVals.get ⟨vi, h⟩).typeOf (some map)
        let errs2 := match er with
          | some e => errs ++ [⟨e, key⟩]
          | none => errs
        expandArgs fuel key rest argVals (vi + 1) (m2.getD map) (expanded ++ [t]) errs2
    else pure (expanded, map, errs)

/-- expected.kind === 'lambda' ? expected.result : expected -/
def tcER (expected : Ty) : Ty :=
  match expected with
  | .lambdaT r _ => r
  | other => other

/-- expected.kind === 'lambda' ? expected.args : e.type.args -/
def tcEA (expected : Ty) (tyArgs : List Ty) : List Ty :=
  match expected with
  | .lambdaT _ as => as
  | _ => tyArgs

/-- (t.kind === 'typename' && typenameMap[t.typename]) ? typenameMap[t.typename] : t -/
def tcResolve (map : TMap) (t : Ty) : Ty :=
  match t with
  | .typename tn =>
    match tmFind map tn with
    | some b => b
    | none => t
  | _ => t

mutual
/-- The resolve-and-recurse loop of typeCheckExpression: substitute bound
typenames at the top level of each expanded slot, recursively check each
argument, and collect results exactly as the source does. -/
def tcArgsLoop : Nat → TMap → List Ty → List TExpr → List Ty → List TExpr → List CErr →
    Except String (List Ty × List TExpr × List CErr)
  | _, _, [], _, resolved, checked, errs => pure (resolved, checked, errs)
  | _, _, _ :: _, [], _, _, _ => .error ("TypeError")
  | 0, _, _ :: _, _ :: _, _, _, _ => .error ("FUEL")
  | Nat.succ fuel, map, t :: ts, a :: as, resolved, checked, errs => do
    let exp := tcResolve map t
    let r ← tc fuel exp a
    match r with
    | .error es => tcArgsLoop fuel map ts as resolved checked (errs ++ es)
    | .ok a2 =>
      if errs = [] then tcArgsLoop fuel map ts as (resolved ++ [exp]) (checked ++ [a2]) errs
      else tcArgsLoop fuel map ts as resolved checked errs

/-- typeCheckExpression from type_check.js: returns the checked, resolved
tree or the collected diagnostics; thrown errors surface as `.error`. -/
def tc : Nat → Ty → TExpr → Except String (Except (List CErr) TExpr)
  | 0, _, _ => .error ("FUEL")
  | Nat.succ fuel, expected, e =>
    match e with
    | .lit _ _ key => do
      let (er, _) ← matchTypeError (Nat.succ fuel) expected e.typeOf none
      match er with
      | some msg => pure (.error [⟨msg, key⟩])
      | none => pure (.ok e)
    | .lambdaE name ty args key =>
      match ty with
      | .lambdaT tyResult tyArgs =>
        let expectedResult := tcER expected
        let expectedArgs := tcEA expected tyArgs
        if expectedResult.isTypenameTop then
          pure (.error [⟨"Could not resolve " ++ expectedResult.nameOf ++
            ".  This expression must be wrapped in a type conversion, e.g. [\"string\", " ++
            stringifyExpression e ++ "].", key⟩])
        else do
          let (er, mp2) ← matchTypeError (Nat.succ fuel) expectedResult tyResult (some [])
          match er with
          | some msg => pure (.error [⟨msg, key⟩])
          | none => do
            let map0 := mp2.getD []
            let (expanded, map1, errs0) ←
              expandArgs (Nat.succ fuel) key expectedArgs args 0 map0 [] []
            let errs1 := if expanded.length ≠ args.length then
                errs0 ++ [⟨"Expected " ++ toString expanded.length ++
                  " arguments, but found " ++ toString args.length ++ " instead.", key⟩]
              else errs0
            if errs1 ≠ [] then pure (.error errs1)
            else do
              let (resolved, checked, errs2) ←
                tcArgsLoop fuel map1 expanded args [] [] []
              if errs2 ≠ [] then pure (.error errs2)
              else pure (.ok (.lambdaE name (.lambdaT expectedResult resolved) checked key))
      | _ => .error ("TypeError")
end

/-- A successful CompiledExpression record (the bound `function` of the
source is not modelled; `js` carries the assembled code string). -/
structure CompSucc where
  js : String
  type : Ty
  isFeatureConstant : Bool
  isZoomConstant : Bool
  expression : TExpr

/-- Result of the compile driver: success record or collected errors. -/
inductive CompRes where
  | success (s : CompSucc) : CompRes
  | errors (es : List CErr) : CompRes

/-- What an operator compile callback returns. -/
structure CbOut where
  js : Option String := none
  errors : Option (List String) := none
  isFeatureConstant : Option Bool := none
  isZoomConstant : Option Bool := none

/-- args[i].js; reading `.js` off a missing argument is the modelled
engine TypeError. -/
def argJs (args : List CompSucc) (i : Nat) : Except String String :=
  match args.get? i with
  | some a => pure a.js
  | none => .error ("TypeError")

def joinJs (args : List CompSucc) (sep : String) : String :=
  String.intercalate sep (args.map (fun a => a.js))

def mkJs (j : String) : CbOut := { js := some j }

/-- Wrap a js-string computation as a callback result with no errors and
no constancy overrides. -/
def cbOfJs (x : Except String String) : Except String CbOut := x.map mkJs

/-- The splice loop of the `case` callback: pair up condition/value,
`assert(args.length === 1)` fails when no fallback remains. -/
def casePieces : List String → Option (List String)
  | [x] => some [x]
  | a :: b :: rest => (casePieces rest).map (fun l => (a ++ " ? " ++ b) :: l)
  | [] => none

def caseJs (args : List CompSucc) : Except String String :=
  match casePieces (args.map (fun a => a.js)) with
  | some pieces => pure (String.intercalate ":" pieces)
  | none => .error ("AssertionError")

/-- The literal numeric value of an expression node, when it is one. -/
def litNumValue : TExpr → Option Rat
  | .lit (.numL q) _ _ => some q
  | _ => none

def TExpr.nameE : TExpr → String
  | .lambdaE n _ _ _ => n
  | .lit _ _ _ => ""

/-- stops.length && stops[stops.length - 1] >= input.value -/
def curveBad (stops : List Rat) (v : Rat) : Bool :=
  match stops.getLast? with
  | some lastv => decide (lastv ≥ v)
  | none => false

/-- The stop-collection loop of the `curve` callback: stop inputs must be
literal numbers in strictly ascending order; outputs become thunks. -/
def curveStops : Nat → List CompSucc → Nat → List Rat → List String →
    Except String (Except (List String) (List Rat × List String))
  | 0, _, _, _, _ => .error ("FUEL")
  | Nat.succ fuel, args, i, stops, outputs =>
    if h2 : i + 1 < args.length then
      let input := (args.get ⟨i, by omega⟩).expression
      let output := args.get ⟨i + 1, h2⟩
      match litNumValue input with
      | none => pure (.error ["Input/output pairs for \"curve\" expressions must be defined using literal numeric values (not computed expressions) for the input values."])
      | some v =>
        if curveBad stops v then
          pure (.error ["Input/output pairs for \"curve\" expressions must be arranged with input values in strictly ascending order."])
        else curveStops fuel args (i + 2) (stops ++ [v]) (outputs ++ ["() => " ++ output.js])
    else pure (.ok (stops, outputs))

/-- The js template of the multi-stop curve (expression.js lines 349-355),
braces written as hex escapes. -/
def curveTemplate (inputJs : String) (stops : List Rat) (outputs : List String)
    (optsJson resultTypeJson : String) : String :=
  "\n            (function () \x7b\n                var input = " ++ inputJs ++
  ";\n                var stopInputs = [" ++ String.intercalate ", " (stops.map renderNum) ++
  "];\n                var stopOutputs = [" ++ String.intercalate ", " outputs ++
  "];\n                return this.evaluateCurve(" ++ inputJs ++
  ", stopInputs, stopOutputs, " ++ optsJson ++ ", " ++ resultTypeJson ++
  ");\n            \x7d.bind(this))()"

/-- The interpolatable output types of a curve. -/
def curveResultType (t : Ty) : Option String :=
  match t with
  | .primNumber => some ("number")
  | .primColor => some ("color")
  | _ => none

/-- The `curve` operator's compile callback (expression.js lines 298-356). -/
def curveCompile (args : List CompSucc) : Except String CbOut := do
  let interp ← match args.get? 0 with
    | some a => pure a.expression
    | none => .error ("TypeError")
  if interp.isLiteral then .error ("Error: Invalid interpolation type")
  else do
    let a3 ← match args.get? 3 with
      | some a => pure a
      | none => .error ("TypeError")
    match curveResultType a3.type with
    | none => pure { errors := some ["Type " ++ a3.type.nameOf ++ " is not interpolatable, and thus cannot be used as a curve\x27s output type."] }
    | some resultType => do
      let r ← curveStops (args.length + 1) args 2 [] []
      match r with
      | .error msgs => pure { errors := some msgs }
      | .ok (stops, outputs) =>
        if stops.length = 1 then pure (mkJs (outputs.headD "undefined"))
        else
          let iname := interp.nameE
          if iname = "exponential" then
            match interp with
            | .lambdaE _ _ iargs _ =>
              match iargs.get? 0 with
              | none => .error ("TypeError")
              | some baseExpr =>
                match litNumValue baseExpr with
                | none => pure { errors := some ["Exponential interpolation base must be a literal number value."] }
                | some base => do
                  let optsJson := "\x7b\"name\":" ++ jsonQuote iname ++
                    ",\"base\":" ++ renderNum base ++ "\x7d"
                  let inputJs ← argJs args 1
                  pure (mkJs (curveTemplate inputJs stops outputs optsJson (jsonQuote resultType)))
            | .lit _ _ _ => .error ("TypeError")
          else do
            let optsJson := "\x7b\"name\":" ++ jsonQuote iname ++ "\x7d"
            let inputJs ← argJs args 1
            pure (mkJs (curveTemplate inputJs stops outputs optsJson (jsonQuote resultType)))

/-- The three operators that consume the feature input (they override
isFeatureConstant to false). -/
def featureOps : List String := ["properties", "geometry_type", "id"]

/-- definition.compile for every registry entry of expression.js, keyed by
operator name; an unknown name models `undefined.compile`. -/
def defCompile (name : String) (args : List CompSucc) : Except String CbOut :=
  if name = "ln2" then cbOfJs (pure ("Math.LN2"))
  else if name = "pi" then cbOfJs (pure ("Math.PI"))
  else if name = "e" then cbOfJs (pure ("Math.E"))
  else if name = "string" then cbOfJs (do
    let a ← argJs args 0
    pure ("String(" ++ a ++ ")"))
  else if name = "number" then cbOfJs (do
    let a ← argJs args 0
    pure ("Number(" ++ a ++ ")"))
  else if name = "boolean" then cbOfJs (do
    let a ← argJs args 0
    pure ("Boolean(" ++ a ++ ")"))
  else if name = "json_array" then cbOfJs (pure ("this.asArray(" ++ joinJs args ", " ++ ")"))
  else if name = "object" then cbOfJs (pure ("this.asObject(" ++ joinJs args ", " ++ ")"))
  else if name = "color" then cbOfJs (pure ("this.color(" ++ joinJs args ", " ++ ")"))
  else if name = "color_to_array" then cbOfJs (do
    let a ← argJs args 0
    pure (a ++ ".value"))
  else if name = "get" then cbOfJs (pure ("this.get(" ++ joinJs args ", " ++ ")"))
  else if name = "has" then cbOfJs (do
    let a ← argJs args 0
    let b ← argJs args 1
    pure (a ++ ".hasOwnProperty(" ++ b ++ ")"))
  else if name = "at" then cbOfJs (do
    let a ← argJs args 0
    let b ← argJs args 1
    pure (a ++ "[" ++ b ++ "]"))
  else if name = "typeof" then cbOfJs (pure ("this.typeOf(" ++ joinJs args ", " ++ ")"))
  else if name = "length" then cbOfJs (do
    let a ← argJs args 0
    pure (a ++ ".length"))
  else if name = "properties" then
    pure { js := some ("this.asObject(props)"), isFeatureConstant := some false }
  else if name = "geometry_type" then
    pure { js := some ("(feature.geometry || \x7b\x7d).type || null"),
           isFeatureConstant := some false }
  else if name = "id" then
    pure { js := some ("typeof feature.id === \"undefined\" ? null : feature.id"),
           isFeatureConstant := some false }
  else if name = "zoom" then
    pure { js := some ("mapProperties.zoom"), isZoomConstant := some false }
  else if name = "+" then cbOfJs (pure (joinJs args "+"))
  else if name = "*" then cbOfJs (pure (joinJs args "*"))
  else if name = "-" then cbOfJs (pure (joinJs args "-"))
  else if name = "/" then cbOfJs (pure (joinJs args "/"))
  else if name = "%" then cbOfJs (pure (joinJs args "%"))
  else if name = "^" then cbOfJs (do
    let a ← argJs args 0
    let b ← argJs args 1
    pure ("Math.pow(" ++ a ++ ", " ++ b ++ ")"))
  else if name = "log10" then cbOfJs (pure ("Math.log10(" ++ joinJs args ", " ++ ")"))
  else if name = "ln" then cbOfJs (pure ("Math.log(" ++ joinJs args ", " ++ ")"))
  else if name = "log2" then cbOfJs (pure ("Math.log2(" ++ joinJs args ", " ++ ")"))
  else if name = "sin" then cbOfJs (pure ("Math.sin(" ++ joinJs args ", " ++ ")"))
  else if name = "cos" then cbOfJs (pure ("Math.cos(" ++ joinJs args ", " ++ ")"))
  else if name = "tan" then cbOfJs (pure ("Math.tan(" ++ joinJs args ", " ++ ")"))
  else if name = "asin" then cbOfJs (pure ("Math.asin(" ++ joinJs args ", " ++ ")"))
  else if name = "acos" then cbOfJs (pure ("Math.acos(" ++ joinJs args ", " ++ ")"))
  else if name = "atan" then cbOfJs (pure ("Math.atan(" ++ joinJs args ", " ++ ")"))
  else if name = "==" then cbOfJs (do
    let a ← argJs args 0
    let b ← argJs args 1
    pure (a ++ " === " ++ b))
  else if name = "!=" then cbOfJs (do
    let a ← argJs args 0
    let b ← argJs args 1
    pure (a ++ " !== " ++ b))
  else if name = ">" then cbOfJs (do
    let a ← argJs args 0
    let b ← argJs args 1
    pure (a ++ " > " ++ b))
  else if name = "<" then cbOfJs (do
    let a ← argJs args 0
    let b ← argJs args 1
    pure (a ++ " < " ++ b))
  else if name = ">=" then cbOfJs (do
    let a ← argJs args 0
    let b ← argJs args 1
    pure (a ++ " >= " ++ b))
  else if name = "<=" then cbOfJs (do
    let a ← argJs args 0
    let b ← argJs args 1
    pure (a ++ " <= " ++ b))
  else if name = "&&" then cbOfJs (pure (joinJs args "&&"))
  else if name = "||" then cbOfJs (pure (joinJs args "||"))
  else if name = "!" then cbOfJs (do
    let a ← argJs args 0
    pure ("!(" ++ a ++ ")"))
  else if name = "upcase" then cbOfJs (do
    let a ← argJs args 0
    pure ("(" ++ a ++ ").toUpperCase()"))
  else if name = "downcase" then cbOfJs (do
    let a ← argJs args 0
    pure ("(" ++ a ++ ").toLowerCase()"))
  else if name = "concat" then
    cbOfJs (pure ("[" ++ joinJs args ", " ++ "].join(\x27\x27)"))
  else if name = "rgb" then cbOfJs (pure ("this.rgba(" ++ joinJs args ", " ++ ")"))
  else if name = "rgba" then cbOfJs (pure ("this.rgba(" ++ joinJs args ", " ++ ")"))
  else if name = "case" then cbOfJs (caseJs args)
  else if name = "curve" then curveCompile args
  else if name = "step" then cbOfJs (pure ("void 0"))
  else if name = "exponential" then cbOfJs (pure ("void 0"))
  else if name = "linear" then cbOfJs (pure ("void 0"))
  else .error ("TypeError")

mutual
/-- The argument loop of the compile driver: compile each argument against
its slot of the checked node's type, collecting errors and successes. -/
def compileArgsLoop : Nat → List Ty → List TExpr → Except String (List CErr × List CompSucc)
  | _, _, [] => pure ([], [])
  | 0, _, _ :: _ => .error ("FUEL")
  | Nat.succ fuel, tys, a :: rest => do
    let r ← compile fuel tys.head? a
    let (es, ss) ← compileArgsLoop fuel tys.tail rest
    match r with
    | .errors es0 => pure (es0 ++ es, ss)
    | .success s => pure (es, s :: ss)

/-- compile from expression.js: typecheck, recurse into arguments, fold
constancy flags, invoke the operator callback, wrap the body. -/
def compile : Nat → Option Ty → TExpr → Except String CompRes
  | 0, _, _ => .error ("FUEL")
  | Nat.succ fuel, expected, e => do
    let tcr ← tc (Nat.succ fuel) (expected.getD e.typeOf) e
    match tcr with
    | .error es => pure (.errors es)
    | .ok e2 =>
      match e2 with
      | .lit v ty _ => pure (.success ⟨jsonStringify v, ty, true, true, e2⟩)
      | .lambdaE name ty args _ =>
        match ty with
        | .lambdaT tyResult tyArgs => do
          let (errs, succs) ← compileArgsLoop fuel tyArgs args
          if errs ≠ [] then pure (.errors errs)
          else do
            let fc0 := succs.foldl (fun m a => m && a.isFeatureConstant) true
            let zc0 := succs.foldl (fun m a => m && a.isZoomConstant) true
            let out ← defCompile name succs
            match out.errors with
            | some msgs => pure (.errors (msgs.map (fun m => ⟨m, e2.keyOf⟩)))
            | none =>
              let fc1 := match out.isFeatureConstant with
                | some b => fc0 && b
                | none => fc0
              let zc1 := match out.isZoomConstant with
                | some b => zc0 && b
                | none => zc0
              match out.js with
              | none => .error ("AssertionError")
              | some j =>
                if j = "" then .error ("AssertionError")
                else pure (.success ⟨"(" ++ j ++ ")", tyResult, fc1, zc1, e2⟩)
        | _ => .error ("TypeError")
end

/-- compileExpression from expression.js: parse then compile at the root
(the runtime `new Function` binding is not modelled). -/
def compileExpression (fuel : Nat) (expr : RawExpr) : Except String CompRes := do
  let parsed ← parseExpression "" expr
  compile fuel none parsed

/-- Projections of a compile outcome, used to state theorems without
binding the whole success record. -/
def resJs : Except String CompRes → Option String
  | .ok (.success s) => some s.js
  | _ => none

def resType : Except String CompRes → Option Ty
  | .ok (.success s) => some s.type
  | _ => none

def resFc : Except String CompRes → Option Bool
  | .ok (.success s) => some s.isFeatureConstant
  | _ => none

def resZc : Except String CompRes → Option Bool
  | .ok (.success s) => some s.isZoomConstant
  | _ => none

def resExpr : Except String CompRes → Option TExpr
  | .ok (.success s) => some s.expression
  | _ => none

def resErrors : Except String CompRes → Option (List CErr)
  | .ok (.errors es) => some es
  | _ => none

/-- Runtime values of the evaluation context.  Objects carry their own
(enumerable) properties and, separately, the flattened prototype chain —
`Object.keys` sees only the former, the `in` operator sees both. -/
inductive JsVal where
  | nullV : JsVal
  | boolV (b : Bool) : JsVal
  | numV (q : Rat) : JsVal
  | strV (s : String) : JsVal
  | objV (own : List (String × JsVal)) (proto : List (String × JsVal)) : JsVal
  | arrV (elems : List JsVal) : JsVal

/-- RuntimeError from the evaluation context: name is always the fixed
"ExpressionEvaluationError". -/
structure RuntimeError where
  name : String
  message : String
deriving DecidableEq, Repr

def mkRuntimeError (m : String) : RuntimeError :=
  ⟨"ExpressionEvaluationError", m⟩

def RuntimeError.toJSON (e : RuntimeError) : String :=
  e.name ++ ": " ++ e.message

/-- An evaluation can fail with a thrown RuntimeError or with a host
exception (e.g. `in` applied to a non-object). -/
inductive EvalErr where
  | rt (e : RuntimeError) : EvalErr
  | host (m : String) : EvalErr
deriving DecidableEq, Repr

def jsTruthy : JsVal → Bool
  | .nullV => false
  | .boolV b => b
  | .numV q => decide (q ≠ 0)
  | .strV s => decide (s ≠ "")
  | .objV _ _ => true
  | .arrV _ => true

/-- JS template-literal coercion of a value to a string (approximate for
arrays; exact for the scalar values the claims exercise). -/
def jsToStr : JsVal → String
  | .nullV => "null"
  | .boolV b => if b then "true" else "false"
  | .numV q => renderNum q
  | .strV s => s
  | .objV _ _ => "[object Object]"
  | .arrV _ => ""

/-- Object.keys: own enumerable property names. -/
def objKeys (own : List (String × JsVal)) : List String :=
  own.map (fun p => p.1)

/-- o.hasOwnProperty(k): own properties only — the semantics of the js the
`has` operator compiles to. -/
def jsHasOwnProperty (own : List (String × JsVal)) (k : String) : Bool :=
  own.any (fun p => p.1 = k)

/-- `k in o`: own properties or anywhere on the prototype chain. -/
def inChain (own proto : List (String × JsVal)) (k : String) : Bool :=
  (own ++ proto).any (fun p => p.1 = k)

/-- o[k]: own properties shadow inherited ones; undefined is modelled as
null (only reached behind an `in` guard in the code under study). -/
def chainLookup (own proto : List (String × JsVal)) (k : String) : JsVal :=
  match (own ++ proto).find? (fun p => p.1 = k) with
  | some p => p.2
  | none => .nullV

/-- get from the evaluation context (part_002 lines 30-34): throws on a
falsy object and on a key absent from the whole chain; otherwise returns
the property value. -/
def ctxGet (obj key : JsVal) : Except EvalErr JsVal :=
  if !jsTruthy obj then
    .error (.rt (mkRuntimeError ("Cannot get property " ++ jsToStr key ++ " from null object")))
  else match obj with
    | .objV own proto =>
      if !inChain own proto (jsToStr key) then
        .error (.rt (mkRuntimeError ("Property " ++ jsToStr key ++
          " not found in object with keys: [" ++ String.intercalate "," (objKeys own) ++ "]")))
      else .ok (chainLookup own proto (jsToStr key))
    | _ => .error (.host ("TypeError"))

/-- stops[i] with a JS-style signed index: undefined outside bounds. -/
def getI (xs : List Rat) (i : Int) : Option Rat :=
  if h : 0 ≤ i ∧ i.toNat < xs.length then some (xs.get ⟨i.toNat, h.2⟩) else none

/-- `input > currentValue && input < upperValue` of the loop condition:
false when stops[c+1] is undefined, as in JS. -/
def fsUvOk (stops : List Rat) (input : Rat) (c : Int) : Bool :=
  match getI stops (c + 1) with
  | some u => decide (input < u)
  | none => false

/-- The while loop of findStopLessThanOrEqualTo (part_002 lines 106-117),
with Math.floor division.  `none` models the run that JS would never leave
(every comparison against an undefined stop value is false). -/
def fsGo (stops : List Rat) (input : Rat) (lower upper cur : Int) : Option Int :=
  if h : lower ≤ upper then
    let c := (lower + upper).fdiv 2
    match getI stops c with
    | none => none
    | some cv =>
      if (decide (input = cv) || (decide (input > cv) && fsUvOk stops input c)) = true then some c
      else if cv < input then fsGo stops input (c + 1) upper c
      else fsGo stops input lower (c - 1) c
  else some (max (cur - 1) 0)
  termination_by (upper + 1 - lower).toNat
  decreasing_by
  · have hd := Int.fmod_add_fdiv (lower + upper) 2
    have hn := Int.fmod_nonneg' (lower + upper) (by norm_num : (0:ℤ) < 2)
    have hl := Int.fmod_lt_of_pos (lower + upper) (by norm_num : (0:ℤ) < 2)
    omega
  · have hd := Int.fmod_add_fdiv (lower + upper) 2
    have hn := Int.fmod_nonneg' (lower + upper) (by norm_num : (0:ℤ) < 2)
    have hl := Int.fmod_lt_of_pos (lower + upper) (by norm_num : (0:ℤ) < 2)
    omega

/-- findStopLessThanOrEqualTo: index of the last stop <= input, by binary
search; `lowerIndex = 0`, `upperIndex = n - 1`, `currentIndex = 0`. -/
def findStopLessThanOrEqualTo (stops : List Rat) (input : Rat) : Option Int :=
  fsGo stops input 0 ((stops.length : Int) - 1) 0

/-- interpolationFactor (part_002 lines 160-169).  Math.pow is a host
black box, passed as the parameter `powF`. -/
def interpolationFactor (powF : Rat → Rat → Rat) (input base lowerValue upperValue : Rat) : Rat :=
  let difference := upperValue - lowerValue
  let progress := input - lowerValue
  if base = 1 then progress / difference
  else (powF base progress - 1) / (powF base difference - 1)

mutual
/-- Does the typed tree apply one of the given operator names anywhere? -/
def mentionsOps (ops : List String) : TExpr → Bool
  | .lit _ _ _ => false
  | .lambdaE name _ args _ => ops.contains name || mentionsOpsList ops args

/-- List version of mentionsOps. -/
def mentionsOpsList (ops : List String) : List TExpr → Bool
  | [] => false
  | a :: rest => mentionsOps ops a || mentionsOpsList ops rest
end

/-- The typed tree mentions properties, geometry_type or id. -/
def mentionsFeature (e : TExpr) : Bool := mentionsOps featureOps e

/-- The typed tree mentions zoom. -/
def mentionsZoom (e : TExpr) : Bool := mentionsOps ["zoom"] e

mutual
/-- Does a Typename occur anywhere in this (syntactic) type?  The `value`
atom is a closed constant, not a Typename occurrence. -/
def Ty.hasTypename : Ty → Bool
  | .typename _ => true
  | .vector t => t.hasTypename
  | .arrayN t _ => t.hasTypename
  | .anyArray t => t.hasTypename
  | .variantT ms => Ty.listHasTypename ms
  | .nargsT ts => Ty.listHasTypename ts
  | .lambdaT r as => r.hasTypename || Ty.listHasTypename as
  | _ => false

/-- List version of Ty.hasTypename. -/
def Ty.listHasTypename : List Ty → Bool
  | [] => false
  | t :: ts => t.hasTypename || Ty.listHasTypename ts
end

mutual
/-- Does a Typename occur in any type annotation of the checked tree? -/
def TExpr.hasTypename : TExpr → Bool
  | .lit _ t _ => t.hasTypename
  | .lambdaE _ t args _ => t.hasTypename || TExpr.listHasTypename args

/-- List version of TExpr.hasTypename. -/
def TExpr.listHasTypename : List TExpr → Bool
  | [] => false
  | a :: rest => a.hasTypename || TExpr.listHasTypename rest
end


/-- Is an evaluation outcome a success? -/
def isOkE : Except EvalErr JsVal → Bool
  | .ok _ => true
  | .error _ => false

/-- A minimal model of Object.prototype as the flattened prototype chain
of a plain object literal: inherited, non-enumerable method slots. -/
def objectProtoChain : List (String × JsVal) :=
  [("toString", JsVal.nullV), ("hasOwnProperty", JsVal.nullV)]

/-- The raw input of end-to-end scenario 6: ["+", 1, "two"]. -/
def c2raw : RawExpr := .arr [.strR "+", .numR 1, .strR "two"]

/-- The raw input ["^", 1]: fewer arguments than the declared fixed list. -/
def c3raw : RawExpr := .arr [.strR "^", .numR 1]

/-- A successfully compiling expression whose checked tree retains the
Typename T nested in a variant annotation: ["length", ["json_array", 0]]. -/
def c5raw : RawExpr := .arr [.strR "length", .arr [.strR "json_array", .numR 0]]

/-- A single-stop curve, wrapped in a number conversion so that its result
type resolves: ["number", ["curve", ["linear"], ["zoom"], 0, 42]]. -/
def c6raw : RawExpr :=
  .arr [.strR "number",
    .arr [.strR "curve", .arr [.strR "linear"], .arr [.strR "zoom"], .numR 0, .numR 42]]

/-- The raw input of end-to-end scenario 5: ["get", ["properties"], "missing"]. -/
def c9raw : RawExpr := .arr [.strR "get", .arr [.strR "properties"], .strR "missing"]

/-- A curve whose stops are not strictly ascending, wrapped in a number
conversion: ["number", ["curve", ["linear"], ["zoom"], 1, 1, 0, 2]]. -/
def c1CurveRaw : RawExpr :=
  .arr [.strR "number",
    .arr [.strR "curve", .arr [.strR "linear"], .arr [.strR "zoom"],
      .numR 1, .numR 1, .numR 0, .numR 2]]

/-- C1 counterexample: a compile-time failure that is thrown, not returned.
Compiling the non-array non-literal input `{}` raises the parse exception
`: expected an array, but found object instead.` instead of producing a
{result: 'error'} value. -/
theorem claim_C1_counterexample :
    compileExpression 99 RawExpr.objR =
      Except.error (": expected an array, but found object instead.") := rfl

/-- C1 amended: type-checker failures and invalid curve shapes are
collected and returned as the `errors` list of an error result, but
parsing failures (non-array non-literal input, unknown operator name) are
thrown to the caller rather than returned. -/
theorem claim_C1_amended :
    (∀ (fuel : Nat) (raw : RawExpr) (m : String),
      parseExpression "" raw = .error m → compileExpression fuel raw = .error m)
    ∧ (∀ (fuel : Nat) (raw : RawExpr) (e : TExpr) (es : List CErr),
      parseExpression "" raw = .ok e →
      tc (fuel + 1) e.typeOf e = .ok (.error es) →
      compileExpression (fuel + 1) raw = .ok (.errors es))
    ∧ compileExpression 99 c1CurveRaw = .ok (.errors
        [⟨"Input/output pairs for \"curve\" expressions must be arranged with input values in strictly ascending order.", ".1"⟩]) := by
  refine ⟨?_, ?_, rfl⟩
  · intro fuel raw m h
    simp only [compileExpression, h]
    rfl
  · intro fuel raw e es hp ht
    simp only [compileExpression, hp]
    show compile (fuel + 1) none e = .ok (.errors es)
    simp only [compile, Option.getD_none, ht, Except.bind]
    rfl

/-- C1 witness: the amended theorem applied to the `{}` input. -/
theorem claim_C1_witness :
    compileExpression 7 RawExpr.objR =
      Except.error (": expected an array, but found object instead.") :=
  claim_C1_amended.1 7 RawExpr.objR _ rfl

/-- C2 counterexample: ["+", 1, "two"] does produce the message `Expected
Number but found String instead.`, but keyed on the applying node (key "")
rather than on the argument path ".2" that the claim states. -/
theorem claim_C2_counterexample :
    compileExpression 99 c2raw =
      .ok (.errors [⟨"Expected Number but found String instead.", ""⟩])
    ∧ ("" : String) ≠ ".2" := ⟨rfl, by decide⟩

/-- C2 amended: compiling ["+", 1, "two"] returns exactly one compile
error, with message `Expected Number but found String instead.` and key ""
(argument-slot mismatches are reported with the applying node's key). -/
theorem claim_C2_amended :
    compileExpression 99 c2raw =
      .ok (.errors [⟨"Expected Number but found String instead.", ""⟩]) := rfl

/-- C3: supplying fewer arguments than the fixed declared list does not
produce the claimed arity diagnostic.  The expansion loop stops once the
actual arguments are exhausted, so ["^", 1] type checks successfully with
a truncated argument-type list, and compilation then crashes with an
engine TypeError inside the ^ callback (args[1].js of undefined). -/
theorem claim_C3_codebug :
    parseExpression "" c3raw = .ok (TExpr.lambdaE "^"
      (Ty.lambdaT .primNumber [.primNumber, .primNumber])
      [TExpr.lit (.numL 1) .primNumber ".1"] "")
    ∧ tc 99 (Ty.lambdaT .primNumber [.primNumber, .primNumber])
        (TExpr.lambdaE "^" (Ty.lambdaT .primNumber [.primNumber, .primNumber])
          [TExpr.lit (.numL 1) .primNumber ".1"] "") =
      .ok (.ok (TExpr.lambdaE "^" (Ty.lambdaT .primNumber [.primNumber])
        [TExpr.lit (.numL 1) .primNumber ".1"] ""))
    ∧ compileExpression 99 c3raw = .error ("TypeError") := ⟨rfl, rfl, rfl⟩

/-- C6: the single-stop curve compiles to the thunk source `() => 42`
without invoking it, so the compiled expression's value is a closure, not
v_0; through the number conversion the produced code is
`(Number((() => 42)))` (which evaluates to NaN, not 42). -/
theorem claim_C6_codebug :
    resJs (compileExpression 99 c6raw) = some ("(Number((() => 42)))")
    ∧ resType (compileExpression 99 c6raw) = some Ty.primNumber
    ∧ resZc (compileExpression 99 c6raw) = some false := ⟨rfl, rfl, rfl⟩

/-- C5 counterexample: ["length", ["json_array", 0]] compiles successfully
yet its fully checked tree still contains the Typename T (nested inside
the variant argument annotation of length). -/
theorem claim_C5_counterexample :
    (resExpr (compileExpression 99 c5raw)).map TExpr.hasTypename = some true
    ∧ resJs (compileExpression 99 c5raw) = some ("((this.asArray(0)).length)") :=
  ⟨rfl, rfl⟩

/-- C8: the interpolation factor between a bracketing stop pair: linear
quotient when the base is 1, exponential ratio when the base is not 1
(Math.pow is the abstract parameter powF). -/
theorem claim_C8 (powF : Rat → Rat → Rat) (input base ki ki1 : Rat)
    (hlt : ki < ki1) (hin1 : ki ≤ input) (hin2 : input ≤ ki1) :
    (base = 1 →
      interpolationFactor powF input base ki ki1 = (input - ki) / (ki1 - ki))
    ∧ (base ≠ 1 →
      interpolationFactor powF input base ki ki1 =
        (powF base (input - ki) - 1) / (powF base (ki1 - ki) - 1)) := by
  constructor <;> intro hb <;> simp [interpolationFactor, hb]

/-- A concrete stand-in for the host Math.pow black box. -/
def constPow : Rat → Rat → Rat := fun _ _ => 3

/-- C8 witness: the theorem applied at stops (0, 10), input 5, with base 1
and base 2. -/
theorem claim_C8_witness :
    interpolationFactor constPow 5 1 0 10 = (5 - 0) / (10 - 0)
    ∧ interpolationFactor constPow 5 2 0 10 =
        (constPow 2 (5 - 0) - 1) / (constPow 2 (10 - 0) - 1) :=
  ⟨(claim_C8 constPow 5 1 0 10 (by norm_num) (by norm_num) (by norm_num)).1 rfl,
   (claim_C8 constPow 5 2 0 10 (by norm_num) (by norm_num) (by norm_num)).2 (by norm_num)⟩

/-- C9: get on a missing key raises the RuntimeError named
ExpressionEvaluationError with the keys-listing message; on the empty
properties object the message is exactly `Property missing not found in
object with keys: []`; and ["get", ["properties"], "missing"] compiles to
a call of the context get on asObject(props) with that key. -/
theorem claim_C9 :
    ctxGet (JsVal.objV [] objectProtoChain) (JsVal.strV "missing") =
      .error (.rt ⟨"ExpressionEvaluationError",
        "Property missing not found in object with keys: []"⟩)
    ∧ (∀ (own proto : List (String × JsVal)) (k : String),
        inChain own proto k = false →
        ctxGet (JsVal.objV own proto) (JsVal.strV k) =
          .error (.rt (mkRuntimeError ("Property " ++ k ++
            " not found in object with keys: [" ++
            String.intercalate "," (objKeys own) ++ "]"))))
    ∧ resJs (compileExpression 99 c9raw) =
        some ("(this.get((this.asObject(props)), \"missing\"))")
    ∧ resType (compileExpression 99 c9raw) = some Ty.value
    ∧ resFc (compileExpression 99 c9raw) = some false := by
  refine ⟨rfl, ?_, rfl, rfl, rfl⟩
  intro own proto k h
  simp [ctxGet, jsTruthy, jsToStr, h]

/-- C9 witness: the missing-key branch applied to a one-property object. -/
theorem claim_C9_witness :
    ctxGet (JsVal.objV [("a", JsVal.numV 1)] []) (JsVal.strV "b") =
      .error (.rt ⟨"ExpressionEvaluationError",
        "Property b not found in object with keys: [a]"⟩) :=
  claim_C9.2.1 [("a", JsVal.numV 1)] [] "b" (by decide)

/-- C10: has checks own properties only while get consults the whole
prototype chain: for every object, get succeeds exactly when the key is
somewhere on the chain, and on an empty object with the standard prototype
hasOwnProperty("toString") is false yet get("toString") succeeds. -/
theorem claim_C10 :
    (∀ (own proto : List (String × JsVal)) (k : String),
      isOkE (ctxGet (JsVal.objV own proto) (JsVal.strV k)) = inChain own proto k)
    ∧ jsHasOwnProperty [] "toString" = false
    ∧ isOkE (ctxGet (JsVal.objV [] objectProtoChain) (JsVal.strV "toString")) = true
    ∧ resJs (compileExpression 99 (.arr [.strR "has", .arr [.strR "properties"], .strR "x"])) =
        some ("((this.asObject(props)).hasOwnProperty(\"x\"))") := by
  refine ⟨?_, rfl, rfl, rfl⟩
  intro own proto k
  cases hc : inChain own proto k <;> simp [ctxGet, jsTruthy, jsToStr, hc, isOkE]

/-- C10 witness: the chain characterization applied to an object that owns
the key. -/
theorem claim_C10_witness :
    isOkE (ctxGet (JsVal.objV [("x", JsVal.numV 1)] []) (JsVal.strV "x")) = true := by
  rw [claim_C10.1]
  rfl


/-- pure on Except is ok. -/
theorem ePure {ε α : Type} (a : α) : (pure a : Except ε α) = .ok a := rfl

/-- bind on Except: success case. -/
theorem eBindOk {ε α β : Type} (a : α) (f : α → Except ε β) :
    (Except.ok a : Except ε α) >>= f = f a := rfl

/-- bind on Except: error case. -/
theorem eBindErr {ε α β : Type} (e : ε) (f : α → Except ε β) :
    (Except.error e : Except ε α) >>= f = .error e := rfl

/-- Without a typename map, a Typename actual never matches: every
returned outcome carries a mismatch message (the final `throw` of
matchTypeError propagates as an exception otherwise). -/
theorem typename_actual_no_match : ∀ fuel : Nat,
    (∀ (exp : Ty) (n : String) (r : Option String × Option TMap),
      matchTypeError fuel exp (.typename n) none = .ok r → r.1.isSome = true)
    ∧ (∀ (exp : Ty) (n : String) (msg : String) (r : Option String × Option TMap),
      mteKinds fuel exp (.typename n) msg none = .ok r → r.1.isSome = true)
    ∧ (∀ (ms : List Ty) (n : String) (r : Option (Option TMap)),
      mteMembersLoop fuel ms (.typename n) none = .ok r → r = none) := by
  intro fuel
  induction fuel with
  | zero =>
    refine ⟨?_, ?_, ?_⟩
    · intro exp n r h
      simp [matchTypeError] at h
    · intro exp n msg r h
      simp [mteKinds] at h
    · intro ms n r h
      cases ms with
      | nil =>
        simp [mteMembersLoop, ePure] at h
        simp [h.symm]
      | cons m rest => simp [mteMembersLoop] at h
  | succ f ih =>
    refine ⟨?_, ?_, ?_⟩
    · intro exp n r h
      simp only [matchTypeError] at h
      exact ih.2.1 exp n _ r h
    · intro exp n msg r h
      cases exp <;> simp only [mteKinds] at h <;>
        [skip; skip; skip; skip; skip; skip; skip; skip; cases h; skip; skip; skip; skip; cases h; cases h]
      case primNull | primNumber | primString | primBoolean
        | primColor | primObject | primInterpolation =>
        simp [Ty.beq, ePure] at h
        simp [h.symm]
      case vector it | arrayN it k | anyArray it =>
        simp [ePure] at h
        simp [h.symm]
      case value | variantT ms =>
        revert h
        cases hml : mteMembersLoop f (Ty.members _) (.typename n) none with
        | error e =>
          intro h
          simp [Ty.beq, eBindErr] at h
        | ok rr =>
          intro h
          have hrr := ih.2.2 _ n rr hml
          subst hrr
          simp [eBindOk, Ty.isVariantKind, ePure, Ty.beq] at h
          simp [h.symm]
    · intro ms n r h
      cases ms with
      | nil =>
        simp [mteMembersLoop, ePure] at h
        simp [h.symm]
      | cons m rest =>
        simp only [mteMembersLoop] at h
        revert h
        cases hm : matchTypeError f m (.typename n) none with
        | error e =>
          intro h
          simp [eBindErr] at h
        | ok er =>
          intro h
          have hsome := ih.1 m n er hm
          obtain ⟨e0, m0⟩ := er
          cases e0 with
          | none => simp at hsome
          | some msg0 =>
            simp [eBindOk] at h
            exact ih.2.2 rest n r h

/-- Inversion of the type checker on literal nodes. -/
theorem tc_succ_lit_inv (f : Nat) (exp : Ty) (v : LitVal) (ty : Ty) (k : String)
    (res : Except (List CErr) TExpr)
    (h : tc (Nat.succ f) exp (.lit v ty k) = .ok res) :
    ∃ er mp, matchTypeError (Nat.succ f) exp ty none = .ok (er, mp) ∧
      ((∃ msg, er = some msg ∧ res = .error [⟨msg, k⟩])
       ∨ (er = none ∧ res = .ok (.lit v ty k))) := by
  simp only [tc, TExpr.typeOf] at h
  cases hm : matchTypeError (Nat.succ f) exp ty none with
  | error e => rw [hm] at h; simp [eBindErr] at h
  | ok er =>
    rw [hm] at h
    obtain ⟨e0, m0⟩ := er
    cases e0 with
    | some msg =>
      simp only [eBindOk, ePure, Except.ok.injEq] at h
      exact ⟨some msg, m0, rfl, Or.inl ⟨msg, rfl, h.symm⟩⟩
    | none =>
      simp only [eBindOk, ePure, Except.ok.injEq] at h
      exact ⟨none, m0, rfl, Or.inr ⟨rfl, h.symm⟩⟩

/-- Inversion of the type checker on successfully checked lambda nodes:
the declared type is a lambda, the expected result is not a top-level
Typename, the expanded slot count equals the argument count, the
resolve-and-recurse loop succeeded with no diagnostics, and the returned
node rebinds the type accordingly. -/
theorem tc_succ_lam_ok_inv (f : Nat) (exp : Ty) (nm : String) (ty : Ty)
    (args : List TExpr) (k : String) (e2 : TExpr)
    (h : tc (Nat.succ f) exp (.lambdaE nm ty args k) = .ok (.ok e2)) :
    ∃ tyR tyA map1 expanded resolved checked,
      ty = .lambdaT tyR tyA ∧
      (tcER exp).isTypenameTop = false ∧
      expanded.length = args.length ∧
      tcArgsLoop f map1 expanded args [] [] [] = .ok (resolved, checked, []) ∧
      e2 = .lambdaE nm (.lambdaT (tcER exp) resolved) checked k := by
  cases ty with
  | lambdaT tyR tyA =>
    refine ⟨tyR, tyA, ?_⟩
    simp only [tc] at h
    by_cases hty : (tcER exp).isTypenameTop = true
    · rw [if_pos hty] at h
      simp [ePure] at h
    · rw [if_neg hty] at h
      cases hm : matchTypeError (Nat.succ f) (tcER exp) tyR (some []) with
      | error e => rw [hm] at h; simp [eBindErr] at h
      | ok er =>
        rw [hm] at h
        obtain ⟨e0, mp2⟩ := er
        cases e0 with
        | some msg => simp [eBindOk, ePure] at h
        | none =>
          simp only [eBindOk] at h
          cases hex : expandArgs (Nat.succ f) k (tcEA exp tyA) args 0 (mp2.getD []) [] [] with
          | error e => rw [hex] at h; simp [eBindErr] at h
          | ok triple =>
            rw [hex] at h
            obtain ⟨expanded, map1, errs0⟩ := triple
            simp only [eBindOk] at h
            by_cases hlen : expanded.length = args.length
            · rw [if_neg (by simp [hlen] : ¬(expanded.length ≠ args.length))] at h
              by_cases herrs : errs0 = []
              · subst herrs
                rw [if_neg (by simp : ¬(([] : List CErr) ≠ []))] at h
                cases hloop : tcArgsLoop f map1 expanded args [] [] [] with
                | error e => rw [hloop] at h; simp [eBindErr] at h
                | ok trip2 =>
                  rw [hloop] at h
                  obtain ⟨resolved, checked, errs2⟩ := trip2
                  simp only [eBindOk] at h
                  by_cases herr2 : errs2 = []
                  · subst herr2
                    rw [if_neg (by simp : ¬(([] : List CErr) ≠ []))] at h
                    simp only [ePure, Except.ok.injEq] at h
                    subst h
                    exact ⟨map1, expanded, resolved, checked, rfl,
                      (by simpa using hty), hlen, hloop, rfl⟩
                  · rw [if_pos herr2] at h
                    simp [ePure] at h
              · rw [if_pos herrs] at h
                simp [ePure] at h
            · rw [if_pos (by simpa using hlen : expanded.length ≠ args.length)] at h
              rw [if_pos (by simp : errs0 ++ [(⟨"Expected " ++ toString expanded.length ++
                " arguments, but found " ++ toString args.length ++ " instead.", k⟩ : CErr)] ≠ [])] at h
              simp [ePure] at h
  | primNull => simp [tc] at h
  | primNumber => simp [tc] at h
  | primString => simp [tc] at h
  | primBoolean => simp [tc] at h
  | primColor => simp [tc] at h
  | primObject => simp [tc] at h
  | primInterpolation => simp [tc] at h
  | value => simp [tc] at h
  | typename n => simp [tc] at h
  | vector it => simp [tc] at h
  | arrayN it n => simp [tc] at h
  | anyArray it => simp [tc] at h
  | variantT ms => simp [tc] at h
  | nargsT ts => simp [tc] at h

/-- Inversion of the compile driver on success: the node was checked, and
the result record is assembled from the checked node — literal nodes give
constant-true flags, lambda nodes fold the children's flags with the
callback's overrides. -/
theorem compile_succ_ok_inv (f : Nat) (expected : Option Ty) (e : TExpr) (s : CompSucc)
    (h : compile (Nat.succ f) expected e = .ok (.success s)) :
    ∃ e2, tc (Nat.succ f) (expected.getD e.typeOf) e = .ok (.ok e2) ∧
      s.expression = e2 ∧
      ((∃ v ty k, e2 = .lit v ty k ∧ s.type = ty ∧
          s.isFeatureConstant = true ∧ s.isZoomConstant = true)
       ∨ (∃ nm tyR tyA args2 k2 succs out j,
           e2 = .lambdaE nm (.lambdaT tyR tyA) args2 k2 ∧
           compileArgsLoop f tyA args2 = .ok ([], succs) ∧
           defCompile nm succs = .ok out ∧ out.errors = none ∧ out.js = some j ∧
           s.type = tyR ∧
           s.isFeatureConstant = (match out.isFeatureConstant with
             | some b => (succs.foldl (fun m a => m && a.isFeatureConstant) true) && b
             | none => succs.foldl (fun m a => m && a.isFeatureConstant) true) ∧
           s.isZoomConstant = (match out.isZoomConstant with
             | some b => (succs.foldl (fun m a => m && a.isZoomConstant) true) && b
             | none => succs.foldl (fun m a => m && a.isZoomConstant) true))) := by
  simp only [compile] at h
  cases htc : tc (Nat.succ f) (expected.getD e.typeOf) e with
  | error m => rw [htc] at h; simp [eBindErr] at h
  | ok tcr =>
    rw [htc] at h
    simp only [eBindOk] at h
    cases tcr with
    | error es => simp [ePure] at h
    | ok e2 =>
      refine ⟨e2, rfl, ?_⟩
      cases e2 with
      | lit v ty k =>
        simp only [ePure, Except.ok.injEq, CompRes.success.injEq] at h
        subst h
        exact ⟨rfl, Or.inl ⟨v, ty, k, rfl, rfl, rfl, rfl⟩⟩
      | lambdaE nm ty2 args2 k2 =>
        cases ty2 with
        | lambdaT tyR tyA =>
          dsimp only [] at h
          cases hl : compileArgsLoop f tyA args2 with
          | error m => rw [hl] at h; simp [eBindErr] at h
          | ok pr =>
            rw [hl] at h
            obtain ⟨errs, succs⟩ := pr
            simp only [eBindOk] at h
            by_cases herrs : errs = []
            · subst herrs
              rw [if_neg (by simp : ¬(([] : List CErr) ≠ []))] at h
              cases hdc : defCompile nm succs with
              | error m => rw [hdc] at h; simp [eBindErr] at h
              | ok out =>
                rw [hdc] at h
                simp only [eBindOk] at h
                cases hoe : out.errors with
                | some msgs => rw [hoe] at h; simp [ePure] at h
                | none =>
                  rw [hoe] at h
                  cases hjs : out.js with
                  | none => rw [hjs] at h; simp at h
                  | some j =>
                    rw [hjs] at h
                    dsimp only [] at h
                    by_cases hj : j = ""
                    · subst hj
                      rw [if_pos rfl] at h
                      simp at h
                    · rw [if_neg hj] at h
                      simp only [ePure, Except.ok.injEq, CompRes.success.injEq] at h
                      subst h
                      exact ⟨rfl, Or.inr ⟨nm, tyR, tyA, args2, k2, succs, out, j,
                        rfl, hl, hdc, hoe, hjs, rfl, rfl, rfl⟩⟩
            · rw [if_pos herrs] at h
              simp [ePure] at h
        | primNull => simp at h
        | primNumber => simp at h
        | primString => simp at h
        | primBoolean => simp at h
        | primColor => simp at h
        | primObject => simp at h
        | primInterpolation => simp at h
        | value => simp at h
        | typename n => simp at h
        | vector it => simp at h
        | arrayN it n => simp at h
        | anyArray it => simp at h
        | variantT ms => simp at h
        | nargsT ts => simp at h

/-- A checked literal's type is never a top-level Typename. -/
theorem tc_ok_lit_not_typename (f : Nat) (exp : Ty) (e : TExpr) (v : LitVal)
    (ty : Ty) (k : String)
    (h : tc f exp e = .ok (.ok (.lit v ty k))) : ty.isTypenameTop = false := by
  cases f with
  | zero => simp [tc] at h
  | succ f =>
    cases e with
    | lit v0 ty0 k0 =>
      obtain ⟨er, mp, hm, hca⟩ := tc_succ_lit_inv f exp v0 ty0 k0 _ h
      rcases hca with ⟨msg, _, habs⟩ | ⟨hnone, heq⟩
      · simp at habs
      · obtain ⟨hv, hty, hk⟩ : v0 = v ∧ ty0 = ty ∧ k0 = k := by
          simpa using heq.symm
        subst hty
        subst hnone
        cases ty0 with
        | typename n =>
          have := (typename_actual_no_match (Nat.succ f)).1 exp n (none, mp) hm
          simp at this
        | primNull => rfl
        | primNumber => rfl
        | primString => rfl
        | primBoolean => rfl
        | primColor => rfl
        | primObject => rfl
        | primInterpolation => rfl
        | value => rfl
        | vector it => rfl
        | arrayN it n => rfl
        | anyArray it => rfl
        | variantT ms => rfl
        | nargsT ts => rfl
        | lambdaT r as => rfl
    | lambdaE nm0 ty0 args0 k0 =>
      obtain ⟨tyR, tyA, map1, expanded, resolved, checked, _, _, _, _, he2⟩ :=
        tc_succ_lam_ok_inv f exp nm0 ty0 args0 k0 _ h
      simp at he2

/-- C5 amended: no Typename remains as the outermost constructor of a
successful compilation's result type (an unresolved top-level Typename
result fails with `Could not resolve ...`); Typenames may however survive
nested inside composite argument-type annotations of the checked tree. -/
theorem claim_C5_amended (fuel : Nat) (expected : Option Ty) (e : TExpr) (s : CompSucc)
    (h : compile fuel expected e = .ok (.success s)) :
    s.type.isTypenameTop = false := by
  cases fuel with
  | zero => simp [compile] at h
  | succ f =>
    obtain ⟨e2, htc, hexpr, hcases⟩ := compile_succ_ok_inv f expected e s h
    rcases hcases with ⟨v, ty, k, he2, hst, _, _⟩ |
      ⟨nm, tyR, tyA, args2, k2, succs, out, j, he2, _, _, _, _, hst, _, _⟩
    · subst he2
      rw [hst]
      exact tc_ok_lit_not_typename (Nat.succ f) _ e v ty k htc
    · subst he2
      rw [hst]
      cases e with
      | lit v0 t0 k0 =>
        obtain ⟨er, mp, hm, hca⟩ := tc_succ_lit_inv f _ v0 t0 k0 _ htc
        rcases hca with ⟨msg, _, habs⟩ | ⟨_, heq⟩
        · simp at habs
        · simp at heq
      | lambdaE nm0 ty0 args0 k0 =>
        obtain ⟨tyR0, tyA0, map1, expanded, resolved, checked, hteq, htop, hlen, hloop, hshape⟩ :=
          tc_succ_lam_ok_inv f _ nm0 ty0 args0 k0 _ htc
        simp only [TExpr.lambdaE.injEq] at hshape
        obtain ⟨hnm, hty, hargs, hk⟩ := hshape
        simp only [Ty.lambdaT.injEq] at hty
        obtain ⟨hr, ha⟩ := hty
        rw [hr]
        exact htop

/-- The typed node for a bare ["zoom"] application. -/
def czoomNode : TExpr := TExpr.lambdaE "zoom" (.lambdaT .primNumber []) [] ""

/-- C5 witness: the amended theorem applied to the compilation of a zoom
node, whose result type is Number. -/
theorem claim_C5_witness :
    Ty.isTypenameTop Ty.primNumber = false :=
  claim_C5_amended 9 none czoomNode
    ⟨"(mapProperties.zoom)", .primNumber, true, false, czoomNode⟩ (by rfl)

/-- Folding && over a list with an initial accumulator. -/
theorem foldl_band {α : Type} (f : α → Bool) :
    ∀ (l : List α) (b : Bool), l.foldl (fun m a => m && f a) b = (b && l.all f) := by
  intro l
  induction l with
  | nil => intro b; simp
  | cons a rest ih =>
    intro b
    simp only [List.foldl_cons, List.all_cons, ih (b && f a), Bool.and_assoc]

/-- The type checker's returned diagnostic lists are never empty. -/
theorem tc_error_nonempty (f : Nat) (exp : Ty) (e : TExpr) (es : List CErr)
    (h : tc f exp e = .ok (.error es)) : es ≠ [] := by
  cases f with
  | zero => simp [tc] at h
  | succ f =>
    cases e with
    | lit v0 ty0 k0 =>
      obtain ⟨er, mp, hm, hca⟩ := tc_succ_lit_inv f exp v0 ty0 k0 _ h
      rcases hca with ⟨msg, _, heq⟩ | ⟨_, heq⟩
      · obtain rfl : es = [⟨msg, k0⟩] := by simpa using heq
        simp
      · simp at heq
    | lambdaE nm ty args k =>
      cases ty with
      | lambdaT tyR tyA =>
        simp only [tc] at h
        by_cases hty : (tcER exp).isTypenameTop = true
        · rw [if_pos hty] at h
          simp only [ePure, Except.ok.injEq] at h
          obtain rfl : es = [⟨"Could not resolve " ++ (tcER exp).nameOf ++
            ".  This expression must be wrapped in a type conversion, e.g. [\"string\", " ++
            stringifyExpression (.lambdaE nm (.lambdaT tyR tyA) args k) ++ "].", k⟩] := by
            simpa using h.symm
          simp
        · rw [if_neg hty] at h
          cases hm : matchTypeError (Nat.succ f) (tcER exp) tyR (some []) with
          | error m => rw [hm] at h; simp [eBindErr] at h
          | ok er =>
            rw [hm] at h
            obtain ⟨e0, mp2⟩ := er
            cases e0 with
            | some msg =>
              simp only [eBindOk, ePure, Except.ok.injEq] at h
              obtain rfl : es = [⟨msg, k⟩] := by simpa using h.symm
              simp
            | none =>
              simp only [eBindOk] at h
              cases hex : expandArgs (Nat.succ f) k (tcEA exp tyA) args 0 (mp2.getD []) [] [] with
              | error m => rw [hex] at h; simp [eBindErr] at h
              | ok triple =>
                rw [hex] at h
                obtain ⟨expanded, map1, errs0⟩ := triple
                simp only [eBindOk] at h
                by_cases hlen : expanded.length = args.length
                · rw [if_neg (by simp [hlen] : ¬(expanded.length ≠ args.length))] at h
                  by_cases herrs : errs0 = []
                  · subst herrs
                    rw [if_neg (by simp : ¬(([] : List CErr) ≠ []))] at h
                    cases hloop : tcArgsLoop f map1 expanded args [] [] [] with
                    | error m => rw [hloop] at h; simp [eBindErr] at h
                    | ok trip2 =>
                      rw [hloop] at h
                      obtain ⟨resolved, checked, errs2⟩ := trip2
                      simp only [eBindOk] at h
                      by_cases herr2 : errs2 = []
                      · subst herr2
                        rw [if_neg (by simp : ¬(([] : List CErr) ≠ []))] at h
                        simp [ePure] at h
                      · rw [if_pos herr2] at h
                        simp only [ePure, Except.ok.injEq, Except.error.injEq] at h
                        subst h
                        exact herr2
                  · rw [if_pos herrs] at h
                    simp only [ePure, Except.ok.injEq, Except.error.injEq] at h
                    subst h
                    exact herrs
                · rw [if_pos (by simpa using hlen : expanded.length ≠ args.length)] at h
                  have hne : errs0 ++ [(⟨"Expected " ++ toString expanded.length ++
                      " arguments, but found " ++ toString args.length ++ " instead.", k⟩ : CErr)] ≠ [] := by
                    simp
                  rw [if_pos hne] at h
                  simp only [ePure, Except.ok.injEq, Except.error.injEq] at h
                  subst h
                  exact hne
      | primNull => simp [tc] at h
      | primNumber => simp [tc] at h
      | primString => simp [tc] at h
      | primBoolean => simp [tc] at h
      | primColor => simp [tc] at h
      | primObject => simp [tc] at h
      | primInterpolation => simp [tc] at h
      | value => simp [tc] at h
      | typename n => simp [tc] at h
      | vector it => simp [tc] at h
      | arrayN it n => simp [tc] at h
      | anyArray it => simp [tc] at h
      | variantT ms => simp [tc] at h
      | nargsT ts => simp [tc] at h


/-- The resolve loop only ever appends to its diagnostic accumulator. -/
theorem tcArgsLoop_errs_mono : ∀ (ts : List Ty) (f : Nat) (map : TMap) (as0 : List TExpr)
    (res0 : List Ty) (chk0 : List TExpr) (errs0 : List CErr)
    (r1 : List Ty) (r2 : List TExpr) (r3 : List CErr),
    tcArgsLoop f map ts as0 res0 chk0 errs0 = .ok (r1, r2, r3) →
    ∃ extra, r3 = errs0 ++ extra := by
  intro ts
  induction ts with
  | nil =>
    intro f map as0 res0 chk0 errs0 r1 r2 r3 h
    obtain ⟨-, -, rfl⟩ : res0 = r1 ∧ chk0 = r2 ∧ errs0 = r3 := by
      cases f <;> simpa [tcArgsLoop, ePure] using h
    exact ⟨[], by simp⟩
  | cons t ts ih =>
    intro f map as0 res0 chk0 errs0 r1 r2 r3 h
    cases as0 with
    | nil => cases f <;> simp [tcArgsLoop] at h
    | cons a as =>
      cases f with
      | zero => simp [tcArgsLoop] at h
      | succ f =>
        simp only [tcArgsLoop] at h
        cases htc : tc f (tcResolve map t) a with
        | error m => rw [htc] at h; simp [eBindErr] at h
        | ok r =>
          rw [htc] at h
          simp only [eBindOk] at h
          cases r with
          | error es =>
            dsimp only [] at h
            obtain ⟨extra, hextra⟩ := ih f map as res0 chk0 (errs0 ++ es) r1 r2 r3 h
            exact ⟨es ++ extra, by simp [hextra]⟩
          | ok a2 =>
            dsimp only [] at h
            by_cases herrs : errs0 = []
            · rw [if_pos herrs] at h
              obtain ⟨extra, hextra⟩ := ih f map as _ _ errs0 r1 r2 r3 h
              exact ⟨extra, hextra⟩
            · rw [if_neg herrs] at h
              exact ih f map as res0 chk0 errs0 r1 r2 r3 h

/-- mentionsOpsList distributes over append. -/
theorem mentionsOpsList_append (ops : List String) :
    ∀ (l1 l2 : List TExpr),
    mentionsOpsList ops (l1 ++ l2) = (mentionsOpsList ops l1 || mentionsOpsList ops l2) := by
  intro l1
  induction l1 with
  | nil => intro l2; simp [mentionsOpsList]
  | cons a rest ih =>
    intro l2
    simp [mentionsOpsList, ih, Bool.or_assoc]

/-- The type checker preserves which operators the tree mentions: the
checked tree applies exactly the operators of the input tree. -/
theorem tc_mentions (ops : List String) : ∀ fuel : Nat,
    (∀ (exp : Ty) (e e2 : TExpr), tc fuel exp e = .ok (.ok e2) →
      mentionsOps ops e2 = mentionsOps ops e)
    ∧ (∀ (map : TMap) (ts : List Ty) (as0 : List TExpr) (res0 : List Ty)
        (chk0 : List TExpr) (res : List Ty) (chk : List TExpr),
      ts.length = as0.length →
      tcArgsLoop fuel map ts as0 res0 chk0 [] = .ok (res, chk, []) →
      mentionsOpsList ops chk = (mentionsOpsList ops chk0 || mentionsOpsList ops as0)) := by
  intro fuel
  induction fuel with
  | zero =>
    constructor
    · intro exp e e2 h
      simp [tc] at h
    · intro map ts as0 res0 chk0 res chk hlen h
      cases ts with
      | nil =>
        cases as0 with
        | nil =>
          obtain ⟨-, rfl, -⟩ : res0 = res ∧ chk0 = chk ∧ ([] : List CErr) = [] := by
            simpa [tcArgsLoop, ePure] using h
          simp [mentionsOpsList]
        | cons a as => simp at hlen
      | cons t ts =>
        cases as0 with
        | nil => simp at hlen
        | cons a as => simp [tcArgsLoop] at h
  | succ f ih =>
    constructor
    · intro exp e e2 h
      cases e with
      | lit v ty k =>
        obtain ⟨er, mp, hm, hca⟩ := tc_succ_lit_inv f exp v ty k _ h
        rcases hca with ⟨msg, _, heq⟩ | ⟨_, heq⟩
        · simp at heq
        · obtain rfl : e2 = .lit v ty k := by simpa using heq
          rfl
      | lambdaE nm ty args k =>
        obtain ⟨tyR, tyA, map1, expanded, resolved, checked, hteq, htop, hlen, hloop, hshape⟩ :=
          tc_succ_lam_ok_inv f exp nm ty args k _ h
        subst hshape
        have hlist := ih.2 map1 expanded args [] [] resolved checked hlen hloop
        simp only [mentionsOps, mentionsOpsList] at hlist ⊢
        simp [hlist]
    · intro map ts as0 res0 chk0 res chk hlen h
      cases ts with
      | nil =>
        cases as0 with
        | nil =>
          obtain ⟨-, rfl, -⟩ : res0 = res ∧ chk0 = chk ∧ ([] : List CErr) = [] := by
            simpa [tcArgsLoop, ePure] using h
          simp [mentionsOpsList]
        | cons a as => simp at hlen
      | cons t ts =>
        cases as0 with
        | nil => simp at hlen
        | cons a as =>
          simp only [tcArgsLoop] at h
          cases htc : tc f (tcResolve map t) a with
          | error m => rw [htc] at h; simp [eBindErr] at h
          | ok r =>
            rw [htc] at h
            simp only [eBindOk] at h
            cases r with
            | error es =>
              dsimp only [] at h
              have hne := tc_error_nonempty f _ a es htc
              obtain ⟨extra, hextra⟩ := tcArgsLoop_errs_mono ts f map as res0 chk0
                ([] ++ es) res chk [] h
              simp at hextra
              exact absurd hextra.1 hne
            | ok a2 =>
              dsimp only [] at h
              simp only [if_true] at h
              have hrec := ih.2 map ts as (res0 ++ [_]) (chk0 ++ [a2]) res chk
                (by simpa using hlen) h
              rw [hrec, mentionsOpsList_append]
              have ha2 := ih.1 _ a a2 htc
              simp [mentionsOpsList, ha2, Bool.or_assoc]

/-- A js-only callback result has no errors and no overrides. -/
theorem cbOfJs_inv (x : Except String String) (out : CbOut)
    (h : cbOfJs x = .ok out) :
    out.errors = none ∧ out.isFeatureConstant = none ∧ out.isZoomConstant = none := by
  cases x with
  | error m => simp [cbOfJs, Except.map] at h
  | ok j =>
    obtain rfl : mkJs j = out := by simpa [cbOfJs, Except.map] using h
    exact ⟨rfl, rfl, rfl⟩

/-- The stop-collection loop returns only nonempty error lists. -/
theorem curveStops_error_nonempty :
    ∀ (fuel : Nat) (args : List CompSucc) (i : Nat) (stops : List Rat)
      (outputs : List String) (msgs : List String),
    curveStops fuel args i stops outputs = .ok (.error msgs) → msgs ≠ [] := by
  intro fuel
  induction fuel with
  | zero => intro args i stops outputs msgs h; simp [curveStops] at h
  | succ f ih =>
    intro args i stops outputs msgs h
    simp only [curveStops] at h
    by_cases hi : i + 1 < args.length
    · rw [dif_pos hi] at h
      cases hlit : litNumValue (args.get ⟨i, by omega⟩).expression with
      | none =>
        rw [hlit] at h
        try dsimp only [] at h
        obtain rfl : msgs = ["Input/output pairs for \"curve\" expressions must be defined using literal numeric values (not computed expressions) for the input values."] := by
          simpa [ePure] using h.symm
        simp
      | some v =>
        rw [hlit] at h
        try dsimp only [] at h
        cases hbad : curveBad stops v with
        | true =>
          rw [hbad] at h
          rw [if_pos rfl] at h
          obtain rfl : msgs = ["Input/output pairs for \"curve\" expressions must be arranged with input values in strictly ascending order."] := by
            simpa [ePure] using h.symm
          simp
        | false =>
          rw [hbad] at h
          rw [if_neg (by simp)] at h
          exact ih args (i + 2) (stops ++ [v]) _ msgs h
    · rw [dif_neg hi] at h
      simp [ePure] at h

/-- The curve callback never sets constancy overrides, and every error
list it returns is nonempty. -/
theorem curveCompile_inv (args : List CompSucc) (out : CbOut)
    (h : curveCompile args = .ok out) :
    out.isFeatureConstant = none ∧ out.isZoomConstant = none ∧
    (∀ msgs, out.errors = some msgs → msgs ≠ []) := by
  simp only [curveCompile] at h
  cases hget : args.get? 0 with
  | none => rw [hget] at h; simp [eBindErr] at h
  | some a0 =>
    rw [hget] at h
    try dsimp only [] at h
    try simp only [ePure, eBindOk] at h
    try dsimp only [] at h
    by_cases hlit : a0.expression.isLiteral = true
    · rw [if_pos hlit] at h
      simp [eBindErr] at h
    · rw [if_neg hlit] at h
      cases hget3 : args.get? 3 with
      | none => rw [hget3] at h; simp [eBindErr] at h
      | some a3 =>
        rw [hget3] at h
        try dsimp only [] at h
        try simp only [ePure, eBindOk] at h
        cases hrt : curveResultType a3.type with
        | none =>
          rw [hrt] at h
          try dsimp only [] at h
          obtain rfl : CbOut.mk none (some ["Type " ++ a3.type.nameOf ++ " is not interpolatable, and thus cannot be used as a curve\x27s output type."]) none none = out := by
            simpa [ePure] using h
          refine ⟨rfl, rfl, ?_⟩
          intro msgs hm
          obtain rfl : ["Type " ++ a3.type.nameOf ++ " is not interpolatable, and thus cannot be used as a curve\x27s output type."] = msgs := by
            simpa using hm
          simp
        | some rt0 =>
          rw [hrt] at h
          try dsimp only [] at h
          cases hcs : curveStops (args.length + 1) args 2 [] [] with
          | error m => rw [hcs] at h; simp [eBindErr] at h
          | ok inner =>
            rw [hcs] at h
            try simp only [ePure, eBindOk] at h
            cases inner with
            | error msgs0 =>
              try dsimp only [] at h
              have hne := curveStops_error_nonempty (args.length + 1) args 2 [] [] msgs0 hcs
              obtain rfl : CbOut.mk none (some msgs0) none none = out := by
                simpa [ePure] using h
              refine ⟨rfl, rfl, ?_⟩
              intro msgs hm
              obtain rfl : msgs0 = msgs := by simpa using hm
              exact hne
            | ok pr =>
              obtain ⟨stops, outputs⟩ := pr
              try dsimp only [] at h
              by_cases hone : stops.length = 1
              · rw [if_pos hone] at h
                obtain rfl : mkJs (outputs.headD "undefined") = out := by
                  simpa [ePure] using h
                exact ⟨rfl, rfl, by intro msgs hm; simp [mkJs] at hm⟩
              · rw [if_neg hone] at h
                by_cases hexp : a0.expression.nameE = "exponential"
                · rw [if_pos hexp] at h
                  cases hie : a0.expression with
                  | lit v t k =>
                    rw [hie] at h
                    try dsimp only [] at h
                    simp [eBindErr] at h
                  | lambdaE nm2 t2 iargs k2 =>
                    rw [hie] at h
                    try dsimp only [] at h
                    cases hb : iargs.get? 0 with
                    | none => rw [hb] at h; simp [eBindErr] at h
                    | some baseExpr =>
                      rw [hb] at h
                      try dsimp only [] at h
                      cases hbl : litNumValue baseExpr with
                      | none =>
                        rw [hbl] at h
                        try dsimp only [] at h
                        obtain rfl : CbOut.mk none (some ["Exponential interpolation base must be a literal number value."]) none none = out := by
                          simpa [ePure] using h
                        refine ⟨rfl, rfl, ?_⟩
                        intro msgs hm
                        obtain rfl : ["Exponential interpolation base must be a literal number value."] = msgs := by
                          simpa using hm
                        simp
                      | some base =>
                        rw [hbl] at h
                        try dsimp only [] at h
                        cases hj1 : argJs args 1 with
                        | error m => rw [hj1] at h; simp [eBindErr] at h
                        | ok inputJs =>
                          rw [hj1] at h
                          try simp only [ePure, eBindOk] at h
                          obtain rfl : mkJs (curveTemplate inputJs stops outputs
                              ("\x7b\"name\":" ++ jsonQuote (TExpr.lambdaE nm2 t2 iargs k2).nameE ++
                               ",\"base\":" ++ renderNum base ++ "\x7d") (jsonQuote rt0)) = out := by
                            simpa [ePure] using h
                          exact ⟨rfl, rfl, by intro msgs hm; simp [mkJs] at hm⟩
                · rw [if_neg hexp] at h
                  cases hj1 : argJs args 1 with
                  | error m => rw [hj1] at h; simp [eBindErr] at h
                  | ok inputJs =>
                    rw [hj1] at h
                    try simp only [ePure, eBindOk] at h
                    obtain rfl : mkJs (curveTemplate inputJs stops outputs
                        ("\x7b\"name\":" ++ jsonQuote a0.expression.nameE ++ "\x7d")
                        (jsonQuote rt0)) = out := by
                      simpa [ePure] using h
                    exact ⟨rfl, rfl, by intro msgs hm; simp [mkJs] at hm⟩
set_option maxHeartbeats 3200000 in
/-- Inversion of the registry callbacks: only properties/geometry_type/id
override isFeatureConstant (to false), only zoom overrides isZoomConstant
(to false), and every returned error list is nonempty. -/
theorem defCompile_inv (name : String) (args : List CompSucc) (out : CbOut)
    (h : defCompile name args = .ok out) :
    out.isFeatureConstant = (if featureOps.contains name then some false else none)
    ∧ out.isZoomConstant = (if name = "zoom" then some false else none)
    ∧ (∀ msgs, out.errors = some msgs → msgs ≠ []) := by
  simp only [defCompile] at h
  by_cases h1 : name = "ln2"
  · rw [if_pos h1] at h
    subst h1
    obtain ⟨he, hf, hz⟩ := cbOfJs_inv _ _ h
    refine ⟨by rw [hf]; decide, by rw [hz]; decide, ?_⟩
    intro msgs hm
    rw [he] at hm
    exact Option.noConfusion hm
  rw [if_neg h1] at h
  by_cases h2 : name = "pi"
  · rw [if_pos h2] at h
    subst h2
    obtain ⟨he, hf, hz⟩ := cbOfJs_inv _ _ h
    refine ⟨by rw [hf]; decide, by rw [hz]; decide, ?_⟩
    intro msgs hm
    rw [he] at hm
    exact Option.noConfusion hm
  rw [if_neg h2] at h
  by_cases h3 : name = "e"
  · rw [if_pos h3] at h
    subst h3
    obtain ⟨he, hf, hz⟩ := cbOfJs_inv _ _ h
    refine ⟨by rw [hf]; decide, by rw [hz]; decide, ?_⟩
    intro msgs hm
    rw [he] at hm
    exact Option.noConfusion hm
  rw [if_neg h3] at h
  by_cases h4 : name = "string"
  · rw [if_pos h4] at h
    subst h4
    obtain ⟨he, hf, hz⟩ := cbOfJs_inv _ _ h
    refine ⟨by rw [hf]; decide, by rw [hz]; decide, ?_⟩
    intro msgs hm
    rw [he] at hm
    exact Option.noConfusion hm
  rw [if_neg h4] at h
  by_cases h5 : name = "number"
  · rw [if_pos h5] at h
    subst h5
    obtain ⟨he, hf, hz⟩ := cbOfJs_inv _ _ h
    refine ⟨by rw [hf]; decide, by rw [hz]; decide, ?_⟩
    intro msgs hm
    rw [he] at hm
    exact Option.noConfusion hm
  rw [if_neg h5] at h
  by_cases h6 : name = "boolean"
  · rw [if_pos h6] at h
    subst h6
    obtain ⟨he, hf, hz⟩ := cbOfJs_inv _ _ h
    refine ⟨by rw [hf]; decide, by rw [hz]; decide, ?_⟩
    intro msgs hm
    rw [he] at hm
    exact Option.noConfusion hm
  rw [if_neg h6] at h
  by_cases h7 : name = "json_array"
  · rw [if_pos h7] at h
    subst h7
    obtain ⟨he, hf, hz⟩ := cbOfJs_inv _ _ h
    refine ⟨by rw [hf]; decide, by rw [hz]; decide, ?_⟩
    intro msgs hm
    rw [he] at hm
    exact Option.noConfusion hm
  rw [if_neg h7] at h
  by_cases h8 : name = "object"
  · rw [if_pos h8] at h
    subst h8
    obtain ⟨he, hf, hz⟩ := cbOfJs_inv _ _ h
    refine ⟨by rw [hf]; decide, by rw [hz]; decide, ?_⟩
    intro msgs hm
    rw [he] at hm
    exact Option.noConfusion hm
  rw [if_neg h8] at h
  by_cases h9 : name = "color"
  · rw [if_pos h9] at h
    subst h9
    obtain ⟨he, hf, hz⟩ := cbOfJs_inv _ _ h
    refine ⟨by rw [hf]; decide, by rw [hz]; decide, ?_⟩
    intro msgs hm
    rw [he] at hm
    exact Option.noConfusion hm
  rw [if_neg h9] at h
  by_cases h10 : name = "color_to_array"
  · rw [if_pos h10] at h
    subst h10
    obtain ⟨he, hf, hz⟩ := cbOfJs_inv _ _ h
    refine ⟨by rw [hf]; decide, by rw [hz]; decide, ?_⟩
    intro msgs hm
    rw [he] at hm
    exact Option.noConfusion hm
  rw [if_neg h10] at h
  by_cases h11 : name = "get"
  · rw [if_pos h11] at h
    subst h11
    obtain ⟨he, hf, hz⟩ := cbOfJs_inv _ _ h
    refine ⟨by rw [hf]; decide, by rw [hz]; decide, ?_⟩
    intro msgs hm
    rw [he] at hm
    exact Option.noConfusion hm
  rw [if_neg h11] at h
  by_cases h12 : name = "has"
  · rw [if_pos h12] at h
    subst h12
    obtain ⟨he, hf, hz⟩ := cbOfJs_inv _ _ h
    refine ⟨by rw [hf]; decide, by rw [hz]; decide, ?_⟩
    intro msgs hm
    rw [he] at hm
    exact Option.noConfusion hm
  rw [if_neg h12] at h
  by_cases h13 : name = "at"
  · rw [if_pos h13] at h
    subst h13
    obtain ⟨he, hf, hz⟩ := cbOfJs_inv _ _ h
    refine ⟨by rw [hf]; decide, by rw [hz]; decide, ?_⟩
    intro msgs hm
    rw [he] at hm
    exact Option.noConfusion hm
  rw [if_neg h13] at h
  by_cases h14 : name = "typeof"
  · rw [if_pos h14] at h
    subst h14
    obtain ⟨he, hf, hz⟩ := cbOfJs_inv _ _ h
    refine ⟨by rw [hf]; decide, by rw [hz]; decide, ?_⟩
    intro msgs hm
    rw [he] at hm
    exact Option.noConfusion hm
  rw [if_neg h14] at h
  by_cases h15 : name = "length"
  · rw [if_pos h15] at h
    subst h15
    obtain ⟨he, hf, hz⟩ := cbOfJs_inv _ _ h
    refine ⟨by rw [hf]; decide, by rw [hz]; decide, ?_⟩
    intro msgs hm
    rw [he] at hm
    exact Option.noConfusion hm
  rw [if_neg h15] at h
  by_cases h16 : name = "properties"
  · rw [if_pos h16] at h
    subst h16
    rw [ePure] at h
    injection h with h0
    subst h0
    exact ⟨by decide, by decide, fun msgs hm => Option.noConfusion hm⟩
  rw [if_neg h16] at h
  by_cases h17 : name = "geometry_type"
  · rw [if_pos h17] at h
    subst h17
    rw [ePure] at h
    injection h with h0
    subst h0
    exact ⟨by decide, by decide, fun msgs hm => Option.noConfusion hm⟩
  rw [if_neg h17] at h
  by_cases h18 : name = "id"
  · rw [if_pos h18] at h
    subst h18
    rw [ePure] at h
    injection h with h0
    subst h0
    exact ⟨by decide, by decide, fun msgs hm => Option.noConfusion hm⟩
  rw [if_neg h18] at h
  by_cases h19 : name = "zoom"
  · rw [if_pos h19] at h
    subst h19
    rw [ePure] at h
    injection h with h0
    subst h0
    exact ⟨by decide, by decide, fun msgs hm => Option.noConfusion hm⟩
  rw [if_neg h19] at h
  by_cases h20 : name = "+"
  · rw [if_pos h20] at h
    subst h20
    obtain ⟨he, hf, hz⟩ := cbOfJs_inv _ _ h
    refine ⟨by rw [hf]; decide, by rw [hz]; decide, ?_⟩
    intro msgs hm
    rw [he] at hm
    exact Option.noConfusion hm
  rw [if_neg h20] at h
  by_cases h21 : name = "*"
  · rw [if_pos h21] at h
    subst h21
    obtain ⟨he, hf, hz⟩ := cbOfJs_inv _ _ h
    refine ⟨by rw [hf]; decide, by rw [hz]; decide, ?_⟩
    intro msgs hm
    rw [he] at hm
    exact Option.noConfusion hm
  rw [if_neg h21] at h
  by_cases h22 : name = "-"
  · rw [if_pos h22] at h
    subst h22
    obtain ⟨he, hf, hz⟩ := cbOfJs_inv _ _ h
    refine ⟨by rw [hf]; decide, by rw [hz]; decide, ?_⟩
    intro msgs hm
    rw [he] at hm
    exact Option.noConfusion hm
  rw [if_neg h22] at h
  by_cases h23 : name = "/"
  · rw [if_pos h23] at h
    subst h23
    obtain ⟨he, hf, hz⟩ := cbOfJs_inv _ _ h
    refine ⟨by rw [hf]; decide, by rw [hz]; decide, ?_⟩
    intro msgs hm
    rw [he] at hm
    exact Option.noConfusion hm
  rw [if_neg h23] at h
  by_cases h24 : name = "%"
  · rw [if_pos h24] at h
    subst h24
    obtain ⟨he, hf, hz⟩ := cbOfJs_inv _ _ h
    refine ⟨by rw [hf]; decide, by rw [hz]; decide, ?_⟩
    intro msgs hm
    rw [he] at hm
    exact Option.noConfusion hm
  rw [if_neg h24] at h
  by_cases h25 : name = "^"
  · rw [if_pos h25] at h
    subst h25
    obtain ⟨he, hf, hz⟩ := cbOfJs_inv _ _ h
    refine ⟨by rw [hf]; decide, by rw [hz]; decide, ?_⟩
    intro msgs hm
    rw [he] at hm
    exact Option.noConfusion hm
  rw [if_neg h25] at h
  by_cases h26 : name = "log10"
  · rw [if_pos h26] at h
    subst h26
    obtain ⟨he, hf, hz⟩ := cbOfJs_inv _ _ h
    refine ⟨by rw [hf]; decide, by rw [hz]; decide, ?_⟩
    intro msgs hm
    rw [he] at hm
    exact Option.noConfusion hm
  rw [if_neg h26] at h
  by_cases h27 : name = "ln"
  · rw [if_pos h27] at h
    subst h27
    obtain ⟨he, hf, hz⟩ := cbOfJs_inv _ _ h
    refine ⟨by rw [hf]; decide, by rw [hz]; decide, ?_⟩
    intro msgs hm
    rw [he] at hm
    exact Option.noConfusion hm
  rw [if_neg h27] at h
  by_cases h28 : name = "log2"
  · rw [if_pos h28] at h
    subst h28
    obtain ⟨he, hf, hz⟩ := cbOfJs_inv _ _ h
    refine ⟨by rw [hf]; decide, by rw [hz]; decide, ?_⟩
    intro msgs hm
    rw [he] at hm
    exact Option.noConfusion hm
  rw [if_neg h28] at h
  by_cases h29 : name = "sin"
  · rw [if_pos h29] at h
    subst h29
    obtain ⟨he, hf, hz⟩ := cbOfJs_inv _ _ h
    refine ⟨by rw [hf]; decide, by rw [hz]; decide, ?_⟩
    intro msgs hm
    rw [he] at hm
    exact Option.noConfusion hm
  rw [if_neg h29] at h
  by_cases h30 : name = "cos"
  · rw [if_pos h30] at h
    subst h30
    obtain ⟨he, hf, hz⟩ := cbOfJs_inv _ _ h
    refine ⟨by rw [hf]; decide, by rw [hz]; decide, ?_⟩
    intro msgs hm
    rw [he] at hm
    exact Option.noConfusion hm
  rw [if_neg h30] at h
  by_cases h31 : name = "tan"
  · rw [if_pos h31] at h
    subst h31
    obtain ⟨he, hf, hz⟩ := cbOfJs_inv _ _ h
    refine ⟨by rw [hf]; decide, by rw [hz]; decide, ?_⟩
    intro msgs hm
    rw [he] at hm
    exact Option.noConfusion hm
  rw [if_neg h31] at h
  by_cases h32 : name = "asin"
  · rw [if_pos h32] at h
    subst h32
    obtain ⟨he, hf, hz⟩ := cbOfJs_inv _ _ h
    refine ⟨by rw [hf]; decide, by rw [hz]; decide, ?_⟩
    intro msgs hm
    rw [he] at hm
    exact Option.noConfusion hm
  rw [if_neg h32] at h
  by_cases h33 : name = "acos"
  · rw [if_pos h33] at h
    subst h33
    obtain ⟨he, hf, hz⟩ := cbOfJs_inv _ _ h
    refine ⟨by rw [hf]; decide, by rw [hz]; decide, ?_⟩
    intro msgs hm
    rw [he] at hm
    exact Option.noConfusion hm
  rw [if_neg h33] at h
  by_cases h34 : name = "atan"
  · rw [if_pos h34] at h
    subst h34
    obtain ⟨he, hf, hz⟩ := cbOfJs_inv _ _ h
    refine ⟨by rw [hf]; decide, by rw [hz]; decide, ?_⟩
    intro msgs hm
    rw [he] at hm
    exact Option.noConfusion hm
  rw [if_neg h34] at h
  by_cases h35 : name = "=="
  · rw [if_pos h35] at h
    subst h35
    obtain ⟨he, hf, hz⟩ := cbOfJs_inv _ _ h
    refine ⟨by rw [hf]; decide, by rw [hz]; decide, ?_⟩
    intro msgs hm
    rw [he] at hm
    exact Option.noConfusion hm
  rw [if_neg h35] at h
  by_cases h36 : name = "!="
  · rw [if_pos h36] at h
    subst h36
    obtain ⟨he, hf, hz⟩ := cbOfJs_inv _ _ h
    refine ⟨by rw [hf]; decide, by rw [hz]; decide, ?_⟩
    intro msgs hm
    rw [he] at hm
    exact Option.noConfusion hm
  rw [if_neg h36] at h
  by_cases h37 : name = ">"
  · rw [if_pos h37] at h
    subst h37
    obtain ⟨he, hf, hz⟩ := cbOfJs_inv _ _ h
    refine ⟨by rw [hf]; decide, by rw [hz]; decide, ?_⟩
    intro msgs hm
    rw [he] at hm
    exact Option.noConfusion hm
  rw [if_neg h37] at h
  by_cases h38 : name = "<"
  · rw [if_pos h38] at h
    subst h38
    obtain ⟨he, hf, hz⟩ := cbOfJs_inv _ _ h
    refine ⟨by rw [hf]; decide, by rw [hz]; decide, ?_⟩
    intro msgs hm
    rw [he] at hm
    exact Option.noConfusion hm
  rw [if_neg h38] at h
  by_cases h39 : name = ">="
  · rw [if_pos h39] at h
    subst h39
    obtain ⟨he, hf, hz⟩ := cbOfJs_inv _ _ h
    refine ⟨by rw [hf]; decide, by rw [hz]; decide, ?_⟩
    intro msgs hm
    rw [he] at hm
    exact Option.noConfusion hm
  rw [if_neg h39] at h
  by_cases h40 : name = "<="
  · rw [if_pos h40] at h
    subst h40
    obtain ⟨he, hf, hz⟩ := cbOfJs_inv _ _ h
    refine ⟨by rw [hf]; decide, by rw [hz]; decide, ?_⟩
    intro msgs hm
    rw [he] at hm
    exact Option.noConfusion hm
  rw [if_neg h40] at h
  by_cases h41 : name = "&&"
  · rw [if_pos h41] at h
    subst h41
    obtain ⟨he, hf, hz⟩ := cbOfJs_inv _ _ h
    refine ⟨by rw [hf]; decide, by rw [hz]; decide, ?_⟩
    intro msgs hm
    rw [he] at hm
    exact Option.noConfusion hm
  rw [if_neg h41] at h
  by_cases h42 : name = "||"
  · rw [if_pos h42] at h
    subst h42
    obtain ⟨he, hf, hz⟩ := cbOfJs_inv _ _ h
    refine ⟨by rw [hf]; decide, by rw [hz]; decide, ?_⟩
    intro msgs hm
    rw [he] at hm
    exact Option.noConfusion hm
  rw [if_neg h42] at h
  by_cases h43 : name = "!"
  · rw [if_pos h43] at h
    subst h43
    obtain ⟨he, hf, hz⟩ := cbOfJs_inv _ _ h
    refine ⟨by rw [hf]; decide, by rw [hz]; decide, ?_⟩
    intro msgs hm
    rw [he] at hm
    exact Option.noConfusion hm
  rw [if_neg h43] at h
  by_cases h44 : name = "upcase"
  · rw [if_pos h44] at h
    subst h44
    obtain ⟨he, hf, hz⟩ := cbOfJs_inv _ _ h
    refine ⟨by rw [hf]; decide, by rw [hz]; decide, ?_⟩
    intro msgs hm
    rw [he] at hm
    exact Option.noConfusion hm
  rw [if_neg h44] at h
  by_cases h45 : name = "downcase"
  · rw [if_pos h45] at h
    subst h45
    obtain ⟨he, hf, hz⟩ := cbOfJs_inv _ _ h
    refine ⟨by rw [hf]; decide, by rw [hz]; decide, ?_⟩
    intro msgs hm
    rw [he] at hm
    exact Option.noConfusion hm
  rw [if_neg h45] at h
  by_cases h46 : name = "concat"
  · rw [if_pos h46] at h
    subst h46
    obtain ⟨he, hf, hz⟩ := cbOfJs_inv _ _ h
    refine ⟨by rw [hf]; decide, by rw [hz]; decide, ?_⟩
    intro msgs hm
    rw [he] at hm
    exact Option.noConfusion hm
  rw [if_neg h46] at h
  by_cases h47 : name = "rgb"
  · rw [if_pos h47] at h
    subst h47
    obtain ⟨he, hf, hz⟩ := cbOfJs_inv _ _ h
    refine ⟨by rw [hf]; decide, by rw [hz]; decide, ?_⟩
    intro msgs hm
    rw [he] at hm
    exact Option.noConfusion hm
  rw [if_neg h47] at h
  by_cases h48 : name = "rgba"
  · rw [if_pos h48] at h
    subst h48
    obtain ⟨he, hf, hz⟩ := cbOfJs_inv _ _ h
    refine ⟨by rw [hf]; decide, by rw [hz]; decide, ?_⟩
    intro msgs hm
    rw [he] at hm
    exact Option.noConfusion hm
  rw [if_neg h48] at h
  by_cases h49 : name = "case"
  · rw [if_pos h49] at h
    subst h49
    obtain ⟨he, hf, hz⟩ := cbOfJs_inv _ _ h
    refine ⟨by rw [hf]; decide, by rw [hz]; decide, ?_⟩
    intro msgs hm
    rw [he] at hm
    exact Option.noConfusion hm
  rw [if_neg h49] at h
  by_cases h50 : name = "curve"
  · rw [if_pos h50] at h
    subst h50
    obtain ⟨hf, hz, he⟩ := curveCompile_inv _ _ h
    exact ⟨by rw [hf]; decide, by rw [hz]; decide, he⟩
  rw [if_neg h50] at h
  by_cases h51 : name = "step"
  · rw [if_pos h51] at h
    subst h51
    obtain ⟨he, hf, hz⟩ := cbOfJs_inv _ _ h
    refine ⟨by rw [hf]; decide, by rw [hz]; decide, ?_⟩
    intro msgs hm
    rw [he] at hm
    exact Option.noConfusion hm
  rw [if_neg h51] at h
  by_cases h52 : name = "exponential"
  · rw [if_pos h52] at h
    subst h52
    obtain ⟨he, hf, hz⟩ := cbOfJs_inv _ _ h
    refine ⟨by rw [hf]; decide, by rw [hz]; decide, ?_⟩
    intro msgs hm
    rw [he] at hm
    exact Option.noConfusion hm
  rw [if_neg h52] at h
  by_cases h53 : name = "linear"
  · rw [if_pos h53] at h
    subst h53
    obtain ⟨he, hf, hz⟩ := cbOfJs_inv _ _ h
    refine ⟨by rw [hf]; decide, by rw [hz]; decide, ?_⟩
    intro msgs hm
    rw [he] at hm
    exact Option.noConfusion hm
  rw [if_neg h53] at h
  exact Except.noConfusion h

/-- The success record produced by compiling a bare ["zoom"] application. -/
def czoomSucc : CompSucc := ⟨"(mapProperties.zoom)", .primNumber, true, false, czoomNode⟩

/-- The compile driver's returned diagnostic lists are never empty: they
come from the checker (nonempty by tc_error_nonempty), from the argument
loop guarded by `errs.length > 0`, or from a callback's nonempty errors. -/
theorem compile_errors_nonempty : ∀ (f : Nat) (expected : Option Ty) (e : TExpr)
    (es : List CErr), compile f expected e = .ok (.errors es) → es ≠ [] := by
  intro f expected e es h hes
  subst hes
  cases f with
  | zero => simp [compile] at h
  | succ f =>
    simp only [compile] at h
    cases htc : tc (Nat.succ f) (expected.getD e.typeOf) e with
    | error m => rw [htc] at h; simp [eBindErr] at h
    | ok tcr =>
      rw [htc] at h
      simp only [eBindOk] at h
      cases tcr with
      | error es0 =>
        dsimp only [] at h
        have h2 : es0 = [] := by simpa [ePure] using h
        exact tc_error_nonempty (Nat.succ f) _ e es0 htc h2
      | ok e2 =>
        cases e2 with
        | lit v ty k => dsimp only [] at h; simp [ePure] at h
        | lambdaE nm ty2 args2 k2 =>
          cases ty2 with
          | lambdaT tyR tyA =>
            dsimp only [] at h
            cases hl : compileArgsLoop f tyA args2 with
            | error m => rw [hl] at h; simp [eBindErr] at h
            | ok pr =>
              rw [hl] at h
              obtain ⟨errs, succs⟩ := pr
              simp only [eBindOk] at h
              by_cases herrs : errs = []
              · subst herrs
                rw [if_neg (by simp : ¬(([] : List CErr) ≠ []))] at h
                cases hdc : defCompile nm succs with
                | error m => rw [hdc] at h; simp [eBindErr] at h
                | ok out =>
                  rw [hdc] at h
                  simp only [eBindOk] at h
                  cases hoe : out.errors with
                  | some msgs =>
                    rw [hoe] at h
                    dsimp only [] at h
                    have hmsgs := (defCompile_inv nm succs out hdc).2.2 msgs hoe
                    have h2 : msgs = [] := by
                      simpa [ePure, List.map_eq_nil_iff] using h
                    exact hmsgs h2
                  | none =>
                    rw [hoe] at h
                    dsimp only [] at h
                    cases hjs : out.js with
                    | none => rw [hjs] at h; simp at h
                    | some j =>
                      rw [hjs] at h
                      dsimp only [] at h
                      by_cases hj : j = ""
                      · subst hj
                        rw [if_pos rfl] at h
                        simp at h
                      · rw [if_neg hj] at h
                        simp [ePure] at h
              · rw [if_pos herrs] at h
                have h2 : errs = [] := by simpa [ePure] using h
                exact herrs h2
          | primNull => simp at h
          | primNumber => simp at h
          | primString => simp at h
          | primBoolean => simp at h
          | primColor => simp at h
          | primObject => simp at h
          | primInterpolation => simp at h
          | value => simp at h
          | typename n => simp at h
          | vector it => simp at h
          | arrayN it n => simp at h
          | anyArray it => simp at h
          | variantT ms => simp at h
          | nargsT ts => simp at h

/-- The constancy-flag invariant of the compile driver, by induction on
fuel: a success record's isFeatureConstant is exactly the negation of
whether its (checked) tree mentions properties/geometry_type/id, its
isZoomConstant the negation of whether it mentions zoom, and the checked
tree mentions the same operators as the input; the argument loop folds
these facts over the children. -/
theorem compile_flags : ∀ fuel : Nat,
    (∀ (expected : Option Ty) (e : TExpr) (s : CompSucc),
      compile fuel expected e = .ok (.success s) →
      s.isFeatureConstant = !mentionsOps featureOps s.expression
      ∧ s.isZoomConstant = !mentionsOps ["zoom"] s.expression
      ∧ mentionsOps featureOps s.expression = mentionsOps featureOps e
      ∧ mentionsOps ["zoom"] s.expression = mentionsOps ["zoom"] e)
    ∧ (∀ (tys : List Ty) (args : List TExpr) (succs : List CompSucc),
      compileArgsLoop fuel tys args = .ok ([], succs) →
      (succs.all (fun a => a.isFeatureConstant)) = !mentionsOpsList featureOps args
      ∧ (succs.all (fun a => a.isZoomConstant)) = !mentionsOpsList ["zoom"] args) := by
  intro fuel
  induction fuel with
  | zero =>
    constructor
    · intro expected e s h
      simp [compile] at h
    · intro tys args succs h
      cases args with
      | nil =>
        have h2 : ([] : List CErr) = [] ∧ ([] : List CompSucc) = succs := by
          simpa [compileArgsLoop, ePure, Prod.mk.injEq] using h
        rw [← h2.2]
        simp [mentionsOpsList]
      | cons a as => simp [compileArgsLoop] at h
  | succ f ih =>
    constructor
    · intro expected e s h
      obtain ⟨e2, htc, hexpr, hcases⟩ := compile_succ_ok_inv f expected e s h
      have hmF := (tc_mentions featureOps (Nat.succ f)).1 _ e e2 htc
      have hmZ := (tc_mentions ["zoom"] (Nat.succ f)).1 _ e e2 htc
      rcases hcases with ⟨v, ty, k, he2, hst, hfc, hzc⟩ |
        ⟨nm, tyR, tyA, args2, k2, succs, out, j, he2, hloop, hdc, hoe, hjs, hst, hfc, hzc⟩
      · subst he2
        refine ⟨?_, ?_, ?_, ?_⟩
        · rw [hfc, hexpr]; rfl
        · rw [hzc, hexpr]; rfl
        · rw [hexpr]; exact hmF
        · rw [hexpr]; exact hmZ
      · subst he2
        obtain ⟨hQf, hQz⟩ := ih.2 tyA args2 succs hloop
        obtain ⟨hdf, hdz, -⟩ := defCompile_inv nm succs out hdc
        have hfoldF : succs.foldl (fun m a => m && a.isFeatureConstant) true =
            !mentionsOpsList featureOps args2 := by
          rw [foldl_band, Bool.true_and]; exact hQf
        have hfoldZ : succs.foldl (fun m a => m && a.isZoomConstant) true =
            !mentionsOpsList ["zoom"] args2 := by
          rw [foldl_band, Bool.true_and]; exact hQz
        refine ⟨?_, ?_, by rw [hexpr]; exact hmF, by rw [hexpr]; exact hmZ⟩
        · rw [hfc, hexpr, hdf]
          cases hc : featureOps.contains nm with
          | true =>
            rw [if_pos rfl]
            dsimp only []
            have hmem : nm ∈ featureOps := by simpa using hc
            simp [mentionsOps, hmem]
          | false =>
            rw [if_neg (by simp)]
            dsimp only []
            rw [hfoldF]
            have hmem : nm ∉ featureOps := by simpa using hc
            simp [mentionsOps, hmem]
        · rw [hzc, hexpr, hdz]
          by_cases hz : nm = "zoom"
          · rw [if_pos hz]
            dsimp only []
            simp [mentionsOps, hz]
          · rw [if_neg hz]
            dsimp only []
            rw [hfoldZ]
            simp [mentionsOps, hz]
    · intro tys args succs h
      cases args with
      | nil =>
        have h2 : ([] : List CErr) = [] ∧ ([] : List CompSucc) = succs := by
          simpa [compileArgsLoop, ePure, Prod.mk.injEq] using h
        rw [← h2.2]
        simp [mentionsOpsList]
      | cons a rest =>
        simp only [compileArgsLoop] at h
        cases hcr : compile f tys.head? a with
        | error m => rw [hcr] at h; simp [eBindErr] at h
        | ok r =>
          rw [hcr] at h
          simp only [eBindOk] at h
          cases hrec : compileArgsLoop f tys.tail rest with
          | error m => rw [hrec] at h; simp [eBindErr] at h
          | ok pr =>
            rw [hrec] at h
            obtain ⟨es, ss⟩ := pr
            simp only [eBindOk] at h
            cases r with
            | errors es0 =>
              dsimp only [] at h
              have h2 : es0 ++ es = [] ∧ ss = succs := by
                simpa [ePure, Prod.mk.injEq] using h
              have hes0 : es0 = [] := (List.append_eq_nil.mp h2.1).1
              exact absurd hes0 (compile_errors_nonempty f tys.head? a es0 hcr)
            | success s =>
              dsimp only [] at h
              have h2 : es = [] ∧ s :: ss = succs := by
                simpa [ePure, Prod.mk.injEq] using h
              obtain ⟨hes, hsc⟩ := h2
              subst hes
              rw [← hsc]
              have hP := ih.1 tys.head? a s hcr
              have hQ := ih.2 tys.tail rest ss hrec
              simp only [List.all_cons, mentionsOpsList, Bool.not_or]
              constructor
              · rw [hP.1, hP.2.2.1, hQ.1]
              · rw [hP.2.1, hP.2.2.2, hQ.2]

/-- C4: for a successfully compiled expression, isFeatureConstant is false
iff the typed tree mentions properties, geometry_type or id (a get through
a properties chain applies the properties operator, so it is covered),
isZoomConstant is false iff it mentions zoom; and at an applying node each
flag is the AND of the children's folded flags with the operator's
override (when one is reported). -/
theorem claim_C4 (fuel : Nat) (expected : Option Ty) (e : TExpr) (s : CompSucc)
    (h : compile fuel expected e = .ok (.success s)) :
    ((s.isFeatureConstant = false ↔ mentionsFeature s.expression = true)
      ∧ (s.isZoomConstant = false ↔ mentionsZoom s.expression = true))
    ∧ (∀ nm tyR tyA cargs ck,
        s.expression = .lambdaE nm (.lambdaT tyR tyA) cargs ck →
        ∃ succs out, compileArgsLoop (fuel - 1) tyA cargs = .ok ([], succs) ∧
          defCompile nm succs = .ok out ∧
          s.isFeatureConstant =
            ((succs.foldl (fun m a => m && a.isFeatureConstant) true)
              && out.isFeatureConstant.getD true) ∧
          s.isZoomConstant =
            ((succs.foldl (fun m a => m && a.isZoomConstant) true)
              && out.isZoomConstant.getD true)) := by
  cases fuel with
  | zero => simp [compile] at h
  | succ f =>
    have hP := (compile_flags (Nat.succ f)).1 expected e s h
    constructor
    · constructor
      · rw [hP.1]
        cases hb : mentionsOps featureOps s.expression <;>
          simp [mentionsFeature, hb]
      · rw [hP.2.1]
        cases hb : mentionsOps ["zoom"] s.expression <;>
          simp [mentionsZoom, hb]
    · intro nm tyR tyA cargs ck hse
      obtain ⟨e2, htc, hexpr, hcases⟩ := compile_succ_ok_inv f expected e s h
      rcases hcases with ⟨v, ty, k, he2, hst, hfc, hzc⟩ |
        ⟨nm0, tyR0, tyA0, args2, k2, succs, out, j, he2, hloop, hdc, hoe, hjs, hst, hfc, hzc⟩
      · rw [hexpr, he2] at hse
        simp at hse
      · rw [hexpr, he2] at hse
        simp only [TExpr.lambdaE.injEq, Ty.lambdaT.injEq] at hse
        obtain ⟨hnm, ⟨hr, ha⟩, hargs, hk⟩ := hse
        subst hnm
        subst ha
        subst hargs
        refine ⟨succs, out, ?_, hdc, ?_, ?_⟩
        · simpa using hloop
        · rw [hfc]
          cases ho : out.isFeatureConstant <;> simp [ho]
        · rw [hzc]
          cases ho : out.isZoomConstant <;> simp [ho]

/-- C4 witness: the theorem applied to the compilation of ["zoom"]. -/
theorem claim_C4_witness :
    (((czoomSucc.isFeatureConstant = false ↔ mentionsFeature czoomSucc.expression = true)
      ∧ (czoomSucc.isZoomConstant = false ↔ mentionsZoom czoomSucc.expression = true))
    ∧ (∀ nm tyR tyA cargs ck,
        czoomSucc.expression = .lambdaE nm (.lambdaT tyR tyA) cargs ck →
        ∃ succs out, compileArgsLoop (9 - 1) tyA cargs = .ok ([], succs) ∧
          defCompile nm succs = .ok out ∧
          czoomSucc.isFeatureConstant =
            ((succs.foldl (fun m a => m && a.isFeatureConstant) true)
              && out.isFeatureConstant.getD true) ∧
          czoomSucc.isZoomConstant =
            ((succs.foldl (fun m a => m && a.isZoomConstant) true)
              && out.isZoomConstant.getD true))) :=
  claim_C4 9 none czoomNode czoomSucc (by rfl)

/-- getI inside bounds reads the list. -/
theorem getI_at (xs : List Rat) (i : Int) (h0 : 0 ≤ i) (hlt : i.toNat < xs.length) :
    getI xs i = some (xs.get ⟨i.toNat, hlt⟩) := by
  rw [getI, dif_pos ⟨h0, hlt⟩]

/-- Inversion of getI on success. -/
theorem getI_some_inv (xs : List Rat) (idx : Int) (u : Rat)
    (h : getI xs idx = some u) :
    0 ≤ idx ∧ ∃ hlt : idx.toNat < xs.length, u = xs.get ⟨idx.toNat, hlt⟩ := by
  rw [getI] at h
  by_cases hb : 0 ≤ idx ∧ idx.toNat < xs.length
  · rw [dif_pos hb] at h
    exact ⟨hb.1, hb.2, by simpa using h.symm⟩
  · rw [dif_neg hb] at h
    exact absurd h (by simp)

/-- If the upper-value test passed, the next stop exists and is above the
input. -/
theorem fsUvOk_true_inv (stops : List Rat) (input : Rat) (c : Int)
    (h : fsUvOk stops input c = true) :
    ∃ u, getI stops (c + 1) = some u ∧ input < u := by
  simp only [fsUvOk] at h
  cases hg : getI stops (c + 1) with
  | none => rw [hg] at h; exact absurd h (by simp)
  | some u =>
    rw [hg] at h
    dsimp only [] at h
    exact ⟨u, rfl, of_decide_eq_true h⟩

/-- If the upper-value test failed, any existing next stop is at or below
the input. -/
theorem fsUvOk_false_inv (stops : List Rat) (input : Rat) (c : Int)
    (h : fsUvOk stops input c = false) :
    ∀ u, getI stops (c + 1) = some u → u ≤ input := by
  intro u hg
  simp only [fsUvOk] at h
  rw [hg] at h
  dsimp only [] at h
  exact le_of_not_lt (of_decide_eq_false h)

/-- A failed loop guard returns max(currentIndex - 1, 0). -/
theorem fsGo_exit (stops : List Rat) (input : Rat) (lower upper cur : Int)
    (h : ¬(lower ≤ upper)) :
    fsGo stops input lower upper cur = some (max (cur - 1) 0) := by
  rw [fsGo, dif_neg h]

/-- When every stop is above the input, the search (from lowerIndex 0)
lands on index 0. -/
theorem fsGo_below (stops : List Rat) (input : Rat)
    (hall : ∀ j : Fin stops.length, input < stops.get j) :
    ∀ (n : Nat) (u cur : Int), u.toNat ≤ n → 0 ≤ u → u < (stops.length : Int) →
    fsGo stops input 0 u cur = some 0 := by
  intro n
  induction n using Nat.strong_induction_on with
  | _ n ih =>
    intro u cur hun h0 hlen
    have hle : (0 : Int) ≤ u := h0
    rw [fsGo, dif_pos hle]
    dsimp only []
    have hd := Int.fmod_add_fdiv ((0 : Int) + u) 2
    have hn2 := Int.fmod_nonneg' ((0 : Int) + u) (by norm_num : (0:ℤ) < 2)
    have hl2 := Int.fmod_lt_of_pos ((0 : Int) + u) (by norm_num : (0:ℤ) < 2)
    set c := ((0 : Int) + u).fdiv 2 with hcdef
    have hc0 : 0 ≤ c := by omega
    have hcu : c ≤ u := by omega
    have hcn : c.toNat < stops.length := by omega
    rw [getI_at stops c hc0 hcn]
    dsimp only []
    have hcv : input < stops.get ⟨c.toNat, hcn⟩ := hall _
    have hcond : ¬((decide (input = stops.get ⟨c.toNat, hcn⟩)
        || (decide (input > stops.get ⟨c.toNat, hcn⟩)
            && fsUvOk stops input c)) = true) := by
      simp only [Bool.or_eq_true, decide_eq_true_eq, Bool.and_eq_true, not_or, not_and]
      exact ⟨ne_of_lt hcv, fun hgt2 => absurd hgt2 (lt_asymm hcv)⟩
    rw [if_neg hcond]
    rw [if_neg (lt_asymm hcv)]
    by_cases hcz : c = 0
    · rw [hcz]
      rw [fsGo_exit stops input 0 (0 - 1) 0 (by omega)]
      norm_num
    · exact ih (c - 1).toNat (by omega) (c - 1) c (le_refl _) (by omega) (by omega)

/-- The binary search invariant: while the bracketing index i lies in
[lower, upper] (within bounds), the loop returns it. -/
theorem fsGo_bracket : ∀ (n : Nat) (stops : List Rat) (input : Rat) (i : Nat)
    (hsort : ∀ (j k : Fin stops.length), (j : Nat) < (k : Nat) → stops.get j < stops.get k)
    (hi1 : i + 1 < stops.length),
    stops.get ⟨i, by omega⟩ ≤ input → input < stops.get ⟨i + 1, hi1⟩ →
    ∀ (lower upper cur : Int),
    (upper + 1 - lower).toNat ≤ n →
    0 ≤ lower → lower ≤ (i : Int) → (i : Int) ≤ upper → upper < (stops.length : Int) →
    fsGo stops input lower upper cur = some (i : Int) := by
  intro n
  induction n with
  | zero =>
    intro stops input i hsort hi1 hge hlt lower upper cur hun h0 hli hiu hup
    exfalso
    omega
  | succ n ih =>
    intro stops input i hsort hi1 hge hlt lower upper cur hun h0 hli hiu hup
    have hmono : ∀ (j k : Fin stops.length), (j : Nat) ≤ (k : Nat) →
        stops.get j ≤ stops.get k := by
      intro j k hjk
      rcases Nat.lt_or_ge j.val k.val with hlt3 | hge3
      · exact le_of_lt (hsort j k hlt3)
      · have hjk2 : j = k := Fin.ext (by omega)
        rw [hjk2]
    have hle : lower ≤ upper := le_trans hli hiu
    rw [fsGo, dif_pos hle]
    dsimp only []
    have hd := Int.fmod_add_fdiv (lower + upper) 2
    have hn2 := Int.fmod_nonneg' (lower + upper) (by norm_num : (0:ℤ) < 2)
    have hl2 := Int.fmod_lt_of_pos (lower + upper) (by norm_num : (0:ℤ) < 2)
    set c := (lower + upper).fdiv 2 with hcdef
    have hc0 : 0 ≤ c := by omega
    have hcu : c ≤ upper := by omega
    have hcl : lower ≤ c := by omega
    have hcn : c.toNat < stops.length := by omega
    rw [getI_at stops c hc0 hcn]
    dsimp only []
    set cv := stops.get ⟨c.toNat, hcn⟩ with hcvdef
    rcases lt_trichotomy input cv with hcase | heq | hgt
    · -- currentValue > input: upperIndex := currentIndex - 1
      have hcond : ¬((decide (input = cv)
          || (decide (input > cv) && fsUvOk stops input c)) = true) := by
        simp only [Bool.or_eq_true, decide_eq_true_eq, Bool.and_eq_true, not_or, not_and]
        exact ⟨ne_of_lt hcase, fun hgt2 => absurd hgt2 (lt_asymm hcase)⟩
      rw [if_neg hcond]
      rw [if_neg (lt_asymm hcase)]
      have hic : i < c.toNat := by
        by_contra hcon
        push_neg at hcon
        have hcvle : cv ≤ stops.get ⟨i, by omega⟩ :=
          hmono ⟨c.toNat, hcn⟩ ⟨i, by omega⟩ hcon
        exact absurd (lt_of_le_of_lt (le_trans hcvle hge) hcase) (lt_irrefl _)
      exact ih stops input i hsort hi1 hge hlt lower (c - 1) c
        (by omega) h0 hli (by omega) (by omega)
    · -- exact match: return currentIndex
      rw [if_pos (by simp [heq])]
      have hile : i ≤ c.toNat := by
        by_contra hcon
        push_neg at hcon
        have h1 : stops.get ⟨c.toNat, hcn⟩ < stops.get ⟨i, by omega⟩ :=
          hsort ⟨c.toNat, hcn⟩ ⟨i, by omega⟩ hcon
        rw [← hcvdef, ← heq] at h1
        exact absurd (lt_of_lt_of_le h1 hge) (lt_irrefl _)
      have hige : c.toNat ≤ i := by
        by_contra hcon
        push_neg at hcon
        have h1 : stops.get ⟨i + 1, hi1⟩ ≤ stops.get ⟨c.toNat, hcn⟩ :=
          hmono ⟨i + 1, hi1⟩ ⟨c.toNat, hcn⟩ (show i + 1 ≤ c.toNat by omega)
        rw [← hcvdef, ← heq] at h1
        exact absurd (lt_of_lt_of_le hlt h1) (lt_irrefl _)
      have : c = (i : Int) := by omega
      rw [this]
    · -- currentValue < input
      cases huv : fsUvOk stops input c with
      | true =>
        rw [if_pos (by
          simp only [Bool.and_true, Bool.or_eq_true, decide_eq_true_eq]
          exact Or.inr hgt)]
        obtain ⟨u, hg, hiu2⟩ := fsUvOk_true_inv stops input c huv
        obtain ⟨-, hub, hueq⟩ := getI_some_inv stops (c + 1) u hg
        have hc1 : (c + 1).toNat = c.toNat + 1 := by omega
        have hile : i ≤ c.toNat := by
          by_contra hcon
          push_neg at hcon
          have h1 : stops.get ⟨(c + 1).toNat, hub⟩ ≤ stops.get ⟨i, by omega⟩ :=
            hmono ⟨(c + 1).toNat, hub⟩ ⟨i, by omega⟩ (show (c + 1).toNat ≤ i by omega)
          rw [← hueq] at h1
          exact absurd (lt_of_lt_of_le hiu2 (le_trans h1 hge)) (lt_irrefl _)
        have hige : c.toNat ≤ i := by
          by_contra hcon
          push_neg at hcon
          have h1 : stops.get ⟨i + 1, hi1⟩ ≤ stops.get ⟨c.toNat, hcn⟩ :=
            hmono ⟨i + 1, hi1⟩ ⟨c.toNat, hcn⟩ (show i + 1 ≤ c.toNat by omega)
          rw [← hcvdef] at h1
          exact absurd (lt_of_lt_of_le hlt (le_trans h1 (le_of_lt hgt))) (lt_irrefl _)
        have : c = (i : Int) := by omega
        rw [this]
      | false =>
        have hcond : ¬((decide (input = cv)
            || (decide (input > cv) && false)) = true) := by
          simp only [Bool.and_false, Bool.or_false, decide_eq_true_eq]
          exact ne_of_gt hgt
        rw [if_neg hcond]
        rw [if_pos hgt]
        have hic : c.toNat < i := by
          by_cases hb : (c + 1).toNat < stops.length
          · have hg : getI stops (c + 1) = some (stops.get ⟨(c + 1).toNat, hb⟩) :=
              getI_at stops (c + 1) (by omega) hb
            have hule := fsUvOk_false_inv stops input c huv _ hg
            by_contra hcon
            push_neg at hcon
            have h1 : stops.get ⟨i + 1, hi1⟩ ≤ stops.get ⟨(c + 1).toNat, hb⟩ :=
              hmono ⟨i + 1, hi1⟩ ⟨(c + 1).toNat, hb⟩ (show i + 1 ≤ (c + 1).toNat by omega)
            exact absurd (lt_of_lt_of_le hlt (le_trans h1 hule)) (lt_irrefl _)
          · exfalso
            have hcl2 : c.toNat = stops.length - 1 := by omega
            have h1 : stops.get ⟨i + 1, hi1⟩ ≤ stops.get ⟨c.toNat, hcn⟩ :=
              hmono ⟨i + 1, hi1⟩ ⟨c.toNat, hcn⟩ (show i + 1 ≤ c.toNat by omega)
            rw [← hcvdef] at h1
            exact absurd (lt_of_lt_of_le hlt (le_trans h1 (le_of_lt hgt))) (lt_irrefl _)
        exact ih stops input i hsort hi1 hge hlt (c + 1) upper c
          (by omega) (by omega) (by omega) hiu hup

/-- C7: on a strictly ascending stop list, findStopLessThanOrEqualTo
returns the index of the largest stop at or below the input whenever the
input is bracketed by consecutive stops (exact matches included), and
returns 0 for an input below the first stop. -/
theorem claim_C7 (stops : List Rat) (input : Rat)
    (hsort : stops.Pairwise (· < ·)) :
    (∀ (i : Nat) (hi : i + 1 < stops.length),
      stops.get ⟨i, by omega⟩ ≤ input → input < stops.get ⟨i + 1, hi⟩ →
      findStopLessThanOrEqualTo stops input = some (i : Int))
    ∧ (∀ hn : 0 < stops.length, input < stops.get ⟨0, hn⟩ →
      findStopLessThanOrEqualTo stops input = some 0) := by
  have hs : ∀ (j k : Fin stops.length), (j : Nat) < (k : Nat) →
      stops.get j < stops.get k := by
    rw [List.pairwise_iff_get] at hsort
    exact fun j k h => hsort j k h
  constructor
  · intro i hi hge hlt
    show fsGo stops input 0 ((stops.length : Int) - 1) 0 = some (i : Int)
    exact fsGo_bracket stops.length stops input i hs hi hge hlt
      0 ((stops.length : Int) - 1) 0 (by omega) (by omega) (by omega) (by omega) (by omega)
  · intro hn hlt0
    have hall : ∀ j : Fin stops.length, input < stops.get j := by
      intro j
      rcases Nat.eq_zero_or_pos j.val with hj0 | hjpos
      · have hj : j = ⟨0, hn⟩ := Fin.ext hj0
        rw [hj]
        exact hlt0
      · exact lt_trans hlt0 (hs ⟨0, hn⟩ j hjpos)
    show fsGo stops input 0 ((stops.length : Int) - 1) 0 = some 0
    exact fsGo_below stops input hall stops.length ((stops.length : Int) - 1) 0
      (by omega) (by omega) (by omega)

/-- C7 witness: on stops [0, 10, 20], input 15 is bracketed by indices 1
and 2 so the search returns 1; input -5 is below the first stop so it
returns 0. -/
theorem claim_C7_witness :
    findStopLessThanOrEqualTo [0, 10, 20] 15 = some 1 ∧
    findStopLessThanOrEqualTo [0, 10, 20] (-5) = some 0 := by
  have hsort : ([0, 10, 20] : List Rat).Pairwise (· < ·) := by
    simp [List.pairwise_cons]
    norm_num
  constructor
  · exact (claim_C7 [0, 10, 20] 15 hsort).1 1 (by norm_num)
      (by norm_num [List.get]) (by norm_num [List.get])
  · exact (claim_C7 [0, 10, 20] (-5) hsort).2 (by norm_num)
      (by norm_num [List.get])
